import Mathlib

/-!
Shallow embedding of the juju uniter event filter (`worker/uniter/filter.go`,
package `uniter`). The Go `filter` struct owns all mutable state in a single
goroutine; its event loop selects over watcher notifications, consumer
requests, and armed output channels. We embed:

* the state cache as a structure `Filter` (Go struct `filter`),
* the handlers `unitChanged`, `serviceChanged`, `upgradeChanged`,
  `relationsChanged` as Lean functions,
* the loop body as a `step` function over explicit events, where each event
  carries the backend responses the corresponding branch would observe
  (refresh results, backend-call errors),
* the Go nil-channel "armed" trick as Boolean fields (`outUpgrade = true`
  means the send branch is selectable),
* channel sends to the consumer as an explicit list of `Output`s.

Charm URLs (`*charm.URL`) are modelled by value as strings; a nil pointer is
`Option.none`.
-/

namespace Uniter

/-- `state.Life` (zero value `Alive`). -/
inductive Life where
  | Alive
  | Dying
  | Dead
deriving DecidableEq, Repr

/-- `state.ResolvedMode` (zero value `ResolvedNone`). -/
inductive ResolvedMode where
  | ResolvedNone
  | ResolvedRetryHooks
  | ResolvedNoHooks
deriving DecidableEq, Repr

/-- A charm URL, by value (`charm.URL`). -/
abbrev CharmURL := String

/-- Go struct `serviceCharm`: holds a charm URL pointer and a force flag. -/
structure ServiceCharm where
  url : Option CharmURL
  force : Bool
deriving DecidableEq, Repr

/-- The filter's state cache plus its armed-output flags (Go struct `filter`
together with the loop-local `discardConfig` variable).

`outUpgrade`/`outResolved`/`outConfig`/`outRelations` are `true` exactly when
the corresponding Go `f.out*` field is non-nil (armed). `unitDyingClosed`
records that `outUnitDying` has been closed. `configWatcherActive` records
that the loop-local `configw` is non-nil. `discardConfigEnabled` records that
the loop-local `discardConfig` channel variable has been set (first config
notification observed). -/
structure Filter where
  life : Life
  resolved : ResolvedMode
  upgradeFrom : ServiceCharm
  upgradeAvailable : ServiceCharm
  upgrade : Option CharmURL
  relations : List Int
  outUpgrade : Bool
  outResolved : Bool
  outConfig : Bool
  outRelations : Bool
  unitDyingClosed : Bool
  configWatcherActive : Bool
  discardConfigEnabled : Bool
deriving DecidableEq, Repr

/-- Errors terminating the loop: `worker.ErrTerminateAgent`, the two
`fmt.Errorf` fatal messages, or any other backend error. -/
inductive LoopError where
  | terminateAgent
  | fatal (msg : String)
  | backend (msg : String)
deriving DecidableEq, Repr

/-- Result of a backend `Refresh`: `errors.IsNotFoundError` is distinguished
from other errors. -/
inductive RefreshErr where
  | notFound
  | other (msg : String)
deriving DecidableEq, Repr

/-- The unit snapshot the filter reads after `f.unit.Refresh()`:
`f.unit.Life()` and `f.unit.Resolved()`. -/
structure UnitInfo where
  life : Life
  resolved : ResolvedMode
deriving DecidableEq, Repr

/-- The service snapshot the filter reads after `f.service.Refresh()`:
`f.service.Life()` and `f.service.CharmURL()` (url, force). -/
structure ServiceInfo where
  life : Life
  curl : CharmURL
  force : Bool
deriving DecidableEq, Repr

/-- Go `filter.upgradeChanged` (filter.go:453-477). Decides whether an
upgrade event is pending. The Go code dereferences
`*f.upgradeAvailable.url`; that pointer is always non-nil once the initial
`serviceChanged` has run, which is the only context in which this function
is called with `upgradeFrom.url` set. For the (unreachable) nil case we
disarm. -/
def upgradeChanged (f : Filter) : Filter :=
  if f.life ≠ Life.Alive then
    { f with outUpgrade := false }
  else
    match f.upgradeFrom.url with
    | none => { f with outUpgrade := false }
    | some fromUrl =>
      match f.upgradeAvailable.url with
      | none => { f with outUpgrade := false }
      | some availUrl =>
        if availUrl ≠ fromUrl then
          if f.upgradeAvailable.force || !f.upgradeFrom.force then
            { f with
              upgrade := if f.upgrade = some availUrl then f.upgrade else some availUrl,
              outUpgrade := true }
          else
            { f with outUpgrade := false }
        else
          { f with outUpgrade := false }

/-- The resolved-update block of Go `filter.unitChanged` (filter.go:420-425):
if the refreshed resolved mode differs from the cached one, cache it, and arm
the resolved output when it is not `ResolvedNone`. -/
def resolvedUpdate (f : Filter) (r : ResolvedMode) : Filter :=
  if r ≠ f.resolved then
    if r ≠ ResolvedMode.ResolvedNone then
      { f with resolved := r, outResolved := true }
    else
      { f with resolved := r }
  else f

/-- Go `filter.unitChanged` (filter.go:402-427). `refresh` is the outcome of
`f.unit.Refresh()` together with the refreshed snapshot. On a life change to
Dying the `outUnitDying` channel is closed and the upgrade output disarmed;
Dead terminates with `worker.ErrTerminateAgent` (before the resolved check);
then the resolved-update block runs. -/
def unitChanged (f : Filter) (refresh : Except RefreshErr UnitInfo) :
    Except LoopError Filter :=
  match refresh with
  | .error .notFound => .error LoopError.terminateAgent
  | .error (.other e) => .error (LoopError.backend e)
  | .ok u =>
    if f.life ≠ u.life then
      match u.life with
      | .Dying =>
        .ok (resolvedUpdate
          { f with life := Life.Dying, unitDyingClosed := true, outUpgrade := false } u.resolved)
      | .Dead => .error LoopError.terminateAgent
      | .Alive => .ok (resolvedUpdate { f with life := Life.Alive } u.resolved)
    else
      .ok (resolvedUpdate f u.resolved)

/-- Go `filter.serviceChanged` (filter.go:430-448). `refresh` is the outcome
of `f.service.Refresh()` with the refreshed snapshot; `destroyErr` is the
outcome of `f.unit.Destroy()` (consulted only when the service is Dying).
Note `upgradeAvailable` is refreshed before the life switch, and
`upgradeChanged` runs on every non-error path (Alive, and Dying after a
successful destroy). -/
def serviceChanged (f : Filter) (refresh : Except RefreshErr ServiceInfo)
    (destroyErr : Option String) : Except LoopError Filter :=
  match refresh with
  | .error .notFound => .error (LoopError.fatal "service unexpectedly removed")
  | .error (.other e) => .error (LoopError.backend e)
  | .ok s =>
    let f := { f with upgradeAvailable := ⟨some s.curl, s.force⟩ }
    match s.life with
    | .Dying =>
      match destroyErr with
      | some e => .error (LoopError.backend e)
      | none => .ok (upgradeChanged f)
    | .Dead => .error (LoopError.fatal "service unexpectedly dead")
    | .Alive => .ok (upgradeChanged f)

/-- Go `filter.relationsChanged` (filter.go:480-494): append ids not already
present, and if the resulting list is non-empty, sort ascending (Go
`sort.Ints`) and arm the relations output. -/
def relationsChanged (f : Filter) (ids : List Int) : Filter :=
  let rels := ids.foldl
    (fun acc id => if acc.contains id then acc else acc ++ [id]) f.relations
  if rels ≠ [] then
    { f with relations := rels.insertionSort (· ≤ ·), outRelations := true }
  else
    { f with relations := rels }

/-- One iteration of the loop's select (filter.go:279-397) is driven by an
event. Each event carries the backend responses its branch observes:

* `unitNotify` / `serviceNotify`: a watcher notification plus the result of
  the refresh (and, for the service, of `f.unit.Destroy()`);
* `configNotify` / `relationsNotify`: config / relations watcher
  notifications;
* `deliver*`: the consumer receives from an armed output channel;
* `reqSetCharm curl stopCfgErr setErr watchErr stopRelErr`: a `SetCharm`
  request with the outcomes of `configw.Stop()`, `unit.SetCharmURL`,
  `unit.WatchConfigSettings`, `relationsw.Stop()`;
* `reqWantForcedUpgrade` / `reqWantResolved` / `reqDiscardConfig`:
  fire-and-forget requests;
* `reqClearResolved clearErr refresh`: a `ClearResolved` request with the
  outcomes of `unit.ClearResolved()` and the subsequent refresh. -/
inductive Event where
  | unitNotify (refresh : Except RefreshErr UnitInfo)
  | serviceNotify (refresh : Except RefreshErr ServiceInfo) (destroyErr : Option String)
  | configNotify
  | relationsNotify (ids : List Int)
  | deliverUpgrade
  | deliverResolved
  | deliverConfig
  | deliverRelations
  | reqSetCharm (curl : CharmURL) (stopCfgErr setErr watchErr stopRelErr : Option String)
  | reqWantForcedUpgrade (force : Bool)
  | reqWantResolved
  | reqClearResolved (clearErr : Option String) (refresh : Except RefreshErr UnitInfo)
  | reqDiscardConfig
deriving Repr

/-- What the consumer observes during one loop iteration: a value sent on an
output channel, or a synchronous acknowledgement. -/
inductive Output where
  | upgradeSent (curl : Option CharmURL)
  | resolvedSent (mode : ResolvedMode)
  | configSent
  | relationsSent (ids : List Int)
  | setCharmAck
  | clearResolvedAck
deriving DecidableEq, Repr

/-- A select branch fires only when it is selectable: the `deliver*` branches
require the corresponding armed (non-nil) channel, and the discard branch
requires the loop-local `discardConfig` variable to have been set. All other
branches are always selectable. -/
def eventEnabled (f : Filter) : Event → Bool
  | .deliverUpgrade => f.outUpgrade
  | .deliverResolved => f.outResolved
  | .deliverConfig => f.outConfig
  | .deliverRelations => f.outRelations
  | .reqDiscardConfig => f.discardConfigEnabled
  | _ => true

/-- The state, consumer-visible outputs, and terminal error (if the loop
returns) produced by one iteration. When `error = some e` the loop has
terminated; outputs already emitted during the iteration (acknowledgements
sent before the failing call) remain visible to the consumer. -/
structure StepResult where
  state : Filter
  outputs : List Output
  error : Option LoopError
deriving DecidableEq, Repr

/-- The loop body (filter.go:279-397): one select iteration on `e`. -/
def step (f : Filter) (e : Event) : StepResult :=
  match e with
  | .unitNotify r =>
    match unitChanged f r with
    | .ok f' => ⟨f', [], none⟩
    | .error err => ⟨f, [], some err⟩
  | .serviceNotify r dErr =>
    match serviceChanged f r dErr with
    | .ok f' => ⟨f', [], none⟩
    | .error err => ⟨f, [], some err⟩
  | .configNotify =>
    ⟨{ f with outConfig := true, discardConfigEnabled := true }, [], none⟩
  | .relationsNotify ids =>
    ⟨relationsChanged f ids, [], none⟩
  | .deliverUpgrade =>
    ⟨{ f with outUpgrade := false }, [Output.upgradeSent f.upgrade], none⟩
  | .deliverResolved =>
    ⟨{ f with outResolved := false }, [Output.resolvedSent f.resolved], none⟩
  | .deliverConfig =>
    ⟨{ f with outConfig := false }, [Output.configSent], none⟩
  | .deliverRelations =>
    ⟨{ f with outRelations := false, relations := [] },
      [Output.relationsSent f.relations], none⟩
  | .reqSetCharm curl stopCfgErr setErr watchErr stopRelErr =>
    -- filter.go:333-367. configw.Stop() only when a config watcher exists.
    match (if f.configWatcherActive then stopCfgErr else none) with
    | some e => ⟨f, [], some (LoopError.backend e)⟩
    | none =>
      match setErr with
      | some e => ⟨f, [], some (LoopError.backend e)⟩
      | none =>
        -- the acknowledgement (`didSetCharm <- nothing`) happens here,
        -- before WatchConfigSettings and the relations-watcher restart.
        match watchErr with
        | some e => ⟨f, [Output.setCharmAck], some (LoopError.backend e)⟩
        | none =>
          match stopRelErr with
          | some e => ⟨f, [Output.setCharmAck], some (LoopError.backend e)⟩
          | none =>
            let f := { f with
              configWatcherActive := true,
              upgradeFrom := { f.upgradeFrom with url := some curl } }
            ⟨upgradeChanged f, [Output.setCharmAck], none⟩
  | .reqWantForcedUpgrade force =>
    ⟨upgradeChanged { f with upgradeFrom := { f.upgradeFrom with force := force } }, [], none⟩
  | .reqWantResolved =>
    ⟨if f.resolved ≠ ResolvedMode.ResolvedNone then { f with outResolved := true } else f,
      [], none⟩
  | .reqClearResolved clearErr r =>
    let f := { f with outResolved := false }
    match clearErr with
    | some e => ⟨f, [], some (LoopError.backend e)⟩
    | none =>
      match unitChanged f r with
      | .error err => ⟨f, [], some err⟩
      | .ok f' => ⟨f', [Output.clearResolvedAck], none⟩
  | .reqDiscardConfig =>
    ⟨{ f with outConfig := false }, [], none⟩

/-- The backend responses observed during loop startup (filter.go:236-273):
the initial unit and service refreshes, the `Destroy` outcome if the service
is Dying, `f.unit.CharmURL()` (`none` when the unit has not adopted a charm),
and the outcome of the initial `WatchConfigSettings`. -/
structure InitData where
  unitRefresh : Except RefreshErr UnitInfo
  serviceRefresh : Except RefreshErr ServiceInfo
  destroyErr : Option String
  unitCharmURL : Option CharmURL
  watchConfigErr : Option String
deriving Repr

/-- The Go zero value of the `filter` struct's cached state, as the loop
first sees it (all output channels nil, `discardConfig` local unset). -/
def initialFilter : Filter where
  life := Life.Alive
  resolved := ResolvedMode.ResolvedNone
  upgradeFrom := ⟨none, false⟩
  upgradeAvailable := ⟨none, false⟩
  upgrade := none
  relations := []
  outUpgrade := false
  outResolved := false
  outConfig := false
  outRelations := false
  unitDyingClosed := false
  configWatcherActive := false
  discardConfigEnabled := false

/-- Loop startup (filter.go:236-273): initial `unitChanged`, initial
`serviceChanged`, then—only if the unit has a charm URL—start the config
watcher and set `upgradeFrom.url`. -/
def initLoop (d : InitData) : Except LoopError Filter :=
  match unitChanged initialFilter d.unitRefresh with
  | .error e => .error e
  | .ok f =>
    match serviceChanged f d.serviceRefresh d.destroyErr with
    | .error e => .error e
    | .ok f =>
      match d.unitCharmURL with
      | some curl =>
        match d.watchConfigErr with
        | some e => .error (LoopError.backend e)
        | none =>
          .ok { f with
            configWatcherActive := true,
            upgradeFrom := { f.upgradeFrom with url := some curl } }
      | none => .ok f

/-- Run the loop over a list of events, collecting outputs. Returns `none`
if some event's select branch is not enabled or the loop terminates with an
error; error-free traces of the Go loop correspond exactly to `some` runs. -/
def runOk (f : Filter) : List Event → Option (Filter × List Output)
  | [] => some (f, [])
  | e :: t =>
    if eventEnabled f e then
      match (step f e).error with
      | some _ => none
      | none =>
        match runOk (step f e).state t with
        | some (f'', outs') => some (f'', (step f e).outputs ++ outs')
        | none => none
    else none

/-! ### Helper lemmas about the handlers -/

lemma upgradeChanged_only (f : Filter) :
    ∃ b u, upgradeChanged f = { f with outUpgrade := b, upgrade := u } := by
  unfold upgradeChanged
  split
  · exact ⟨false, f.upgrade, rfl⟩
  · split
    · exact ⟨false, f.upgrade, rfl⟩
    · split
      · exact ⟨false, f.upgrade, rfl⟩
      · split
        · split
          · exact ⟨true, _, rfl⟩
          · exact ⟨false, f.upgrade, rfl⟩
        · exact ⟨false, f.upgrade, rfl⟩

@[simp] lemma upgradeChanged_life (f : Filter) : (upgradeChanged f).life = f.life := by
  obtain ⟨b, u, h⟩ := upgradeChanged_only f; rw [h]

@[simp] lemma upgradeChanged_resolved (f : Filter) :
    (upgradeChanged f).resolved = f.resolved := by
  obtain ⟨b, u, h⟩ := upgradeChanged_only f; rw [h]

@[simp] lemma upgradeChanged_upgradeFrom (f : Filter) :
    (upgradeChanged f).upgradeFrom = f.upgradeFrom := by
  obtain ⟨b, u, h⟩ := upgradeChanged_only f; rw [h]

@[simp] lemma upgradeChanged_upgradeAvailable (f : Filter) :
    (upgradeChanged f).upgradeAvailable = f.upgradeAvailable := by
  obtain ⟨b, u, h⟩ := upgradeChanged_only f; rw [h]

@[simp] lemma upgradeChanged_relations (f : Filter) :
    (upgradeChanged f).relations = f.relations := by
  obtain ⟨b, u, h⟩ := upgradeChanged_only f; rw [h]

@[simp] lemma upgradeChanged_outResolved (f : Filter) :
    (upgradeChanged f).outResolved = f.outResolved := by
  obtain ⟨b, u, h⟩ := upgradeChanged_only f; rw [h]

@[simp] lemma upgradeChanged_outConfig (f : Filter) :
    (upgradeChanged f).outConfig = f.outConfig := by
  obtain ⟨b, u, h⟩ := upgradeChanged_only f; rw [h]

@[simp] lemma upgradeChanged_outRelations (f : Filter) :
    (upgradeChanged f).outRelations = f.outRelations := by
  obtain ⟨b, u, h⟩ := upgradeChanged_only f; rw [h]

@[simp] lemma upgradeChanged_unitDyingClosed (f : Filter) :
    (upgradeChanged f).unitDyingClosed = f.unitDyingClosed := by
  obtain ⟨b, u, h⟩ := upgradeChanged_only f; rw [h]

@[simp] lemma upgradeChanged_configWatcherActive (f : Filter) :
    (upgradeChanged f).configWatcherActive = f.configWatcherActive := by
  obtain ⟨b, u, h⟩ := upgradeChanged_only f; rw [h]

@[simp] lemma upgradeChanged_discardConfigEnabled (f : Filter) :
    (upgradeChanged f).discardConfigEnabled = f.discardConfigEnabled := by
  obtain ⟨b, u, h⟩ := upgradeChanged_only f; rw [h]

/-- The condition under which `upgradeChanged` arms the upgrade output. -/
def upgradeArms (f : Filter) : Prop :=
  f.life = Life.Alive ∧
    ∃ fu au, f.upgradeFrom.url = some fu ∧ f.upgradeAvailable.url = some au ∧
      au ≠ fu ∧ (f.upgradeAvailable.force = true ∨ f.upgradeFrom.force = false)

instance instDecidableUpgradeArms (f : Filter) : Decidable (upgradeArms f) := by
  rcases hfu : f.upgradeFrom.url with _ | fu
  · exact Decidable.isFalse (by
      rintro ⟨_, fu', au', hfu', _⟩
      rw [hfu] at hfu'
      exact Option.noConfusion hfu')
  · rcases hau : f.upgradeAvailable.url with _ | au
    · exact Decidable.isFalse (by
        rintro ⟨_, fu', au', _, hau', _⟩
        rw [hau] at hau'
        exact Option.noConfusion hau')
    · exact decidable_of_iff
        (f.life = Life.Alive ∧ au ≠ fu ∧
          (f.upgradeAvailable.force = true ∨ f.upgradeFrom.force = false)) (by
        constructor
        · rintro ⟨hl, hne, hforce⟩
          exact ⟨hl, fu, au, hfu, hau, hne, hforce⟩
        · rintro ⟨hl, fu', au', hfu', hau', hne, hforce⟩
          rw [hfu, Option.some.injEq] at hfu'
          rw [hau, Option.some.injEq] at hau'
          subst hfu' hau'
          exact ⟨hl, hne, hforce⟩)

/-- Closed form of `upgradeChanged`. -/
lemma upgradeChanged_eq (f : Filter) :
    upgradeChanged f =
      if upgradeArms f then
        { f with upgrade := f.upgradeAvailable.url, outUpgrade := true }
      else
        { f with outUpgrade := false } := by
  by_cases hl : f.life = Life.Alive
  · rcases hfu : f.upgradeFrom.url with _ | fu
    · simp [upgradeChanged, upgradeArms, hl, hfu]
    · rcases hau : f.upgradeAvailable.url with _ | au
      · simp [upgradeChanged, upgradeArms, hl, hfu, hau]
      · by_cases hne : au = fu
        · simp [upgradeChanged, upgradeArms, hl, hfu, hau, hne]
        · by_cases hforce : f.upgradeAvailable.force = true ∨ f.upgradeFrom.force = false
          · have hb : (f.upgradeAvailable.force || !f.upgradeFrom.force) = true := by
              rcases hforce with h | h <;> simp [h]
            have harm : upgradeArms f := ⟨hl, fu, au, hfu, hau, hne, hforce⟩
            simp only [upgradeChanged, hl, hfu, hau, hne, hb, harm, ne_eq,
              not_true_eq_false, if_false, not_false_eq_true, if_true]
            split <;> simp_all
          · have hb : (f.upgradeAvailable.force || !f.upgradeFrom.force) = false := by
              push_neg at hforce
              simp [hforce.1, hforce.2]
            have harm : ¬ upgradeArms f := by
              rintro ⟨_, fu', au', hfu', hau', hne', hf⟩
              rw [hfu] at hfu'; rw [hau] at hau'
              simp only [Option.some.injEq] at hfu' hau'
              subst hfu' hau'
              exact hforce hf
            simp [upgradeChanged, hl, hfu, hau, hne, hb, harm]
  · have harm : ¬ upgradeArms f := fun h => hl h.1
    simp [upgradeChanged, hl, harm]

lemma upgradeChanged_armed_iff (f : Filter) :
    (upgradeChanged f).outUpgrade = true ↔ upgradeArms f := by
  rw [upgradeChanged_eq]
  split
  · rename_i hc; exact iff_of_true rfl hc
  · rename_i hc; exact iff_of_false (by simp) hc

lemma upgradeChanged_armed_upgrade (f : Filter)
    (h : (upgradeChanged f).outUpgrade = true) :
    (upgradeChanged f).upgrade = f.upgradeAvailable.url := by
  rw [upgradeChanged_eq] at h ⊢
  split at h
  · rename_i hc
    rw [if_pos hc]
  · simp at h

lemma resolvedUpdate_only (f : Filter) (m : ResolvedMode) :
    ∃ r b, resolvedUpdate f m = { f with resolved := r, outResolved := b } := by
  unfold resolvedUpdate
  split
  · split
    · exact ⟨m, true, rfl⟩
    · exact ⟨m, f.outResolved, rfl⟩
  · exact ⟨f.resolved, f.outResolved, rfl⟩

@[simp] lemma resolvedUpdate_life (f : Filter) (m : ResolvedMode) :
    (resolvedUpdate f m).life = f.life := by
  obtain ⟨r, b, h⟩ := resolvedUpdate_only f m; rw [h]

@[simp] lemma resolvedUpdate_upgradeFrom (f : Filter) (m : ResolvedMode) :
    (resolvedUpdate f m).upgradeFrom = f.upgradeFrom := by
  obtain ⟨r, b, h⟩ := resolvedUpdate_only f m; rw [h]

@[simp] lemma resolvedUpdate_upgradeAvailable (f : Filter) (m : ResolvedMode) :
    (resolvedUpdate f m).upgradeAvailable = f.upgradeAvailable := by
  obtain ⟨r, b, h⟩ := resolvedUpdate_only f m; rw [h]

@[simp] lemma resolvedUpdate_upgrade (f : Filter) (m : ResolvedMode) :
    (resolvedUpdate f m).upgrade = f.upgrade := by
  obtain ⟨r, b, h⟩ := resolvedUpdate_only f m; rw [h]

@[simp] lemma resolvedUpdate_relations (f : Filter) (m : ResolvedMode) :
    (resolvedUpdate f m).relations = f.relations := by
  obtain ⟨r, b, h⟩ := resolvedUpdate_only f m; rw [h]

@[simp] lemma resolvedUpdate_outUpgrade (f : Filter) (m : ResolvedMode) :
    (resolvedUpdate f m).outUpgrade = f.outUpgrade := by
  obtain ⟨r, b, h⟩ := resolvedUpdate_only f m; rw [h]

@[simp] lemma resolvedUpdate_outConfig (f : Filter) (m : ResolvedMode) :
    (resolvedUpdate f m).outConfig = f.outConfig := by
  obtain ⟨r, b, h⟩ := resolvedUpdate_only f m; rw [h]

@[simp] lemma resolvedUpdate_outRelations (f : Filter) (m : ResolvedMode) :
    (resolvedUpdate f m).outRelations = f.outRelations := by
  obtain ⟨r, b, h⟩ := resolvedUpdate_only f m; rw [h]

@[simp] lemma resolvedUpdate_unitDyingClosed (f : Filter) (m : ResolvedMode) :
    (resolvedUpdate f m).unitDyingClosed = f.unitDyingClosed := by
  obtain ⟨r, b, h⟩ := resolvedUpdate_only f m; rw [h]

@[simp] lemma resolvedUpdate_configWatcherActive (f : Filter) (m : ResolvedMode) :
    (resolvedUpdate f m).configWatcherActive = f.configWatcherActive := by
  obtain ⟨r, b, h⟩ := resolvedUpdate_only f m; rw [h]

@[simp] lemma resolvedUpdate_discardConfigEnabled (f : Filter) (m : ResolvedMode) :
    (resolvedUpdate f m).discardConfigEnabled = f.discardConfigEnabled := by
  obtain ⟨r, b, h⟩ := resolvedUpdate_only f m; rw [h]

/-- Shape of every successful `unitChanged`: the result is `resolvedUpdate`
applied to an intermediate state `g` that agrees with `f` on everything
except possibly `life`, `unitDyingClosed` and `outUpgrade`; moreover `g`'s
life is the refreshed life, `outUpgrade` is never newly armed, and
`unitDyingClosed` is never re-opened. -/
lemma unitChanged_ok_shape {f f' : Filter} {r : Except RefreshErr UnitInfo}
    (h : unitChanged f r = .ok f') :
    ∃ u g, r = .ok u ∧ f' = resolvedUpdate g u.resolved ∧
      g.resolved = f.resolved ∧ g.outResolved = f.outResolved ∧
      g.upgradeFrom = f.upgradeFrom ∧ g.upgradeAvailable = f.upgradeAvailable ∧
      g.upgrade = f.upgrade ∧ g.relations = f.relations ∧
      g.outConfig = f.outConfig ∧ g.outRelations = f.outRelations ∧
      g.configWatcherActive = f.configWatcherActive ∧
      g.discardConfigEnabled = f.discardConfigEnabled ∧
      (g.outUpgrade = true → f.outUpgrade = true) ∧
      (f.unitDyingClosed = true → g.unitDyingClosed = true) ∧
      g.life = u.life := by
  rcases r with err | u
  · rcases err with _ | e <;> simp [unitChanged] at h
  · simp only [unitChanged] at h
    by_cases hne : f.life = u.life
    · rw [if_neg (not_not_intro hne)] at h
      simp only [Except.ok.injEq] at h
      exact ⟨u, f, rfl, h.symm, rfl, rfl, rfl, rfl, rfl, rfl, rfl, rfl, rfl, rfl,
        fun hh => hh, fun hh => hh, hne⟩
    · rw [if_pos hne] at h
      cases hu : u.life
      · rw [hu] at h
        simp only [Except.ok.injEq] at h
        exact ⟨u, _, rfl, h.symm, rfl, rfl, rfl, rfl, rfl, rfl, rfl, rfl, rfl, rfl,
          by simp, by simp, hu.symm⟩
      · rw [hu] at h
        simp only [Except.ok.injEq] at h
        exact ⟨u, _, rfl, h.symm, rfl, rfl, rfl, rfl, rfl, rfl, rfl, rfl, rfl, rfl,
          by simp, by simp, hu.symm⟩
      · rw [hu] at h
        exact absurd h (by simp)

/-- Shape of every successful `serviceChanged`: the refresh succeeded, the
service was not Dead, a Dying service's destroy succeeded, and the result is
`upgradeChanged` of the state with `upgradeAvailable` refreshed. -/
lemma serviceChanged_ok_shape {f f' : Filter} {r : Except RefreshErr ServiceInfo}
    {dErr : Option String} (h : serviceChanged f r dErr = .ok f') :
    ∃ s, r = .ok s ∧ s.life ≠ Life.Dead ∧ (s.life = Life.Dying → dErr = none) ∧
      f' = upgradeChanged { f with upgradeAvailable := ⟨some s.curl, s.force⟩ } := by
  rcases r with err | s
  · rcases err with _ | e <;> simp [serviceChanged] at h
  · simp only [serviceChanged] at h
    refine ⟨s, rfl, ?_⟩
    cases hl : s.life
    · rw [hl] at h
      simp only [Except.ok.injEq] at h
      exact ⟨by simp [hl], by simp [hl], h.symm⟩
    · rw [hl] at h
      rcases hd : dErr with _ | e
      · rw [hd] at h
        simp only [Except.ok.injEq] at h
        exact ⟨by simp [hl], fun _ => rfl, h.symm⟩
      · rw [hd] at h
        exact absurd h (by simp)
    · rw [hl] at h
      exact absurd h (by simp)

/-- Invariant preservation along an error-free run: if `P` is preserved by
every enabled, allowed, error-free step, and every output such a step emits
satisfies `Q`, then a successful run from a `P`-state of allowed events ends
in a `P`-state and all its outputs satisfy `Q`. -/
lemma runOk_inv {P : Filter → Prop} {Q : Output → Prop} {allowed : Event → Prop}
    (hstep : ∀ f e, P f → allowed e → eventEnabled f e = true →
      (step f e).error = none →
      P (step f e).state ∧ ∀ o ∈ (step f e).outputs, Q o) :
    ∀ (t : List Event) (f fr : Filter) (outs : List Output),
      P f → (∀ e ∈ t, allowed e) → runOk f t = some (fr, outs) →
      P fr ∧ ∀ o ∈ outs, Q o := by
  intro t
  induction t with
  | nil =>
    intro f fr outs hP _ hrun
    simp only [runOk, Option.some.injEq, Prod.mk.injEq] at hrun
    rcases hrun with ⟨h1, h2⟩
    subst h1 h2
    exact ⟨hP, by simp⟩
  | cons e t ih =>
    intro f fr outs hP hall hrun
    unfold runOk at hrun
    split at hrun
    · rename_i hen
      split at hrun
      · simp at hrun
      · rename_i herr
        have hP' := hstep f e hP (hall e (by simp)) hen herr
        split at hrun
        · rename_i fr' outs' hrest
          simp only [Option.some.injEq, Prod.mk.injEq] at hrun
          obtain ⟨h1, h2⟩ := hrun
          subst h1 h2
          have hrec := ih (step f e).state fr' outs' hP'.1
            (fun e' he' => hall e' (by simp [he'])) hrest
          refine ⟨hrec.1, ?_⟩
          intro o ho
          rcases List.mem_append.mp ho with ho | ho
          · exact hP'.2 o ho
          · exact hrec.2 o ho
        · simp at hrun
    · simp at hrun

lemma relationsChanged_only (f : Filter) (ids : List Int) :
    ∃ rl b, relationsChanged f ids = { f with relations := rl, outRelations := b } := by
  unfold relationsChanged
  dsimp only
  split
  · exact ⟨_, true, rfl⟩
  · exact ⟨_, f.outRelations, rfl⟩

@[simp] lemma relationsChanged_life (f : Filter) (ids : List Int) :
    (relationsChanged f ids).life = f.life := by
  obtain ⟨rl, b, h⟩ := relationsChanged_only f ids; rw [h]

@[simp] lemma relationsChanged_resolved (f : Filter) (ids : List Int) :
    (relationsChanged f ids).resolved = f.resolved := by
  obtain ⟨rl, b, h⟩ := relationsChanged_only f ids; rw [h]

@[simp] lemma relationsChanged_upgradeFrom (f : Filter) (ids : List Int) :
    (relationsChanged f ids).upgradeFrom = f.upgradeFrom := by
  obtain ⟨rl, b, h⟩ := relationsChanged_only f ids; rw [h]

@[simp] lemma relationsChanged_upgradeAvailable (f : Filter) (ids : List Int) :
    (relationsChanged f ids).upgradeAvailable = f.upgradeAvailable := by
  obtain ⟨rl, b, h⟩ := relationsChanged_only f ids; rw [h]

@[simp] lemma relationsChanged_upgrade (f : Filter) (ids : List Int) :
    (relationsChanged f ids).upgrade = f.upgrade := by
  obtain ⟨rl, b, h⟩ := relationsChanged_only f ids; rw [h]

@[simp] lemma relationsChanged_outUpgrade (f : Filter) (ids : List Int) :
    (relationsChanged f ids).outUpgrade = f.outUpgrade := by
  obtain ⟨rl, b, h⟩ := relationsChanged_only f ids; rw [h]

@[simp] lemma relationsChanged_outResolved (f : Filter) (ids : List Int) :
    (relationsChanged f ids).outResolved = f.outResolved := by
  obtain ⟨rl, b, h⟩ := relationsChanged_only f ids; rw [h]

@[simp] lemma relationsChanged_outConfig (f : Filter) (ids : List Int) :
    (relationsChanged f ids).outConfig = f.outConfig := by
  obtain ⟨rl, b, h⟩ := relationsChanged_only f ids; rw [h]

@[simp] lemma relationsChanged_unitDyingClosed (f : Filter) (ids : List Int) :
    (relationsChanged f ids).unitDyingClosed = f.unitDyingClosed := by
  obtain ⟨rl, b, h⟩ := relationsChanged_only f ids; rw [h]

@[simp] lemma relationsChanged_configWatcherActive (f : Filter) (ids : List Int) :
    (relationsChanged f ids).configWatcherActive = f.configWatcherActive := by
  obtain ⟨rl, b, h⟩ := relationsChanged_only f ids; rw [h]

@[simp] lemma relationsChanged_discardConfigEnabled (f : Filter) (ids : List Int) :
    (relationsChanged f ids).discardConfigEnabled = f.discardConfigEnabled := by
  obtain ⟨rl, b, h⟩ := relationsChanged_only f ids; rw [h]

/-! ### Spec-side definitions for refinement claims -/

/-- The spec's ordered rules for the upgrade decision (§4.3), written from
the spec's words: the result is `none` for "disarm" and `some url` for "set
`PendingUpgrade.url := url` and arm". -/
def upgradeDecisionSpec (life : Life) (upgradeFromUrl : Option CharmURL)
    (upgradeFromForce : Bool) (availUrl : CharmURL) (availForce : Bool) :
    Option CharmURL :=
  -- rule 1: life ≠ Alive → disarm
  if life ≠ Life.Alive then none
  else
    match upgradeFromUrl with
    -- rule 2: no adopted charm yet → disarm
    | none => none
    | some fromUrl =>
      -- rule 3: same charm → disarm
      if availUrl = fromUrl then none
      -- rule 4: forced candidate, or consumer does not require forcing → arm
      else if availForce = true ∨ upgradeFromForce = false then some availUrl
      -- rule 5: otherwise disarm
      else none

instance instDecEqExcept {ε α : Type} [DecidableEq ε] [DecidableEq α] :
    DecidableEq (Except ε α) := fun x y =>
  match x, y with
  | .error a, .error b =>
    if h : a = b then Decidable.isTrue (by rw [h])
    else Decidable.isFalse (fun hc => h (by injection hc))
  | .error _, .ok _ => Decidable.isFalse (fun hc => Except.noConfusion hc)
  | .ok _, .error _ => Decidable.isFalse (fun hc => Except.noConfusion hc)
  | .ok a, .ok b =>
    if h : a = b then Decidable.isTrue (by rw [h])
    else Decidable.isFalse (fun hc => h (by injection hc))

/-! ### Concrete example states used by witnesses and counterexamples -/

/-- A filter whose unit runs `cs:foo-1` while the service announces
`cs:foo-2`, neither forced. -/
def exampleAvail : Filter :=
  { initialFilter with
    upgradeFrom := ⟨some "cs:foo-1", false⟩,
    upgradeAvailable := ⟨some "cs:foo-2", false⟩ }

/-- Startup data: unit Alive/unresolved on `cs:foo-1`, service Alive
announcing `cs:foo-2` unforced, all backend calls succeeding. -/
def exampleInit : InitData :=
  ⟨Except.ok ⟨Life.Alive, ResolvedMode.ResolvedNone⟩,
   Except.ok ⟨Life.Alive, "cs:foo-2", false⟩, none, some "cs:foo-1", none⟩

/-- The state `initLoop exampleInit` produces. -/
def exampleStartup : Filter :=
  { initialFilter with
    upgradeFrom := ⟨some "cs:foo-1", false⟩,
    upgradeAvailable := ⟨some "cs:foo-2", false⟩,
    configWatcherActive := true }

/-! ### C1 -/

/-- C1: the upgrade decision `upgradeChanged` implements exactly the spec's
ordered rules — (1) not Alive → disarm; (2) `upgradeFrom.url` unset →
disarm; (3) equal URLs → disarm; (4) candidate forced or consumer not
force-restricted → set the pending upgrade URL and arm; (5) otherwise
disarm — and the loop evaluates it on every service change, on SetCharm
completion, and on every WantUpgradeEvent request. -/
theorem upgradeChanged_implements_spec_rules (f : Filter) (au : CharmURL)
    (hau : f.upgradeAvailable.url = some au) :
    ((upgradeChanged f).outUpgrade = true ↔
      (upgradeDecisionSpec f.life f.upgradeFrom.url f.upgradeFrom.force au
        f.upgradeAvailable.force).isSome) ∧
    ((upgradeChanged f).outUpgrade = true →
      (upgradeChanged f).upgrade =
        upgradeDecisionSpec f.life f.upgradeFrom.url f.upgradeFrom.force au
          f.upgradeAvailable.force) ∧
    (∀ (g : Filter) (s : ServiceInfo) (dE : Option String),
      (step g (Event.serviceNotify (Except.ok s) dE)).error = none →
      (step g (Event.serviceNotify (Except.ok s) dE)).state =
        upgradeChanged { g with upgradeAvailable := ⟨some s.curl, s.force⟩ }) ∧
    (∀ (g : Filter) (curl : CharmURL),
      (step g (Event.reqSetCharm curl none none none none)).state =
        upgradeChanged { g with
          configWatcherActive := true,
          upgradeFrom := { g.upgradeFrom with url := some curl } }) ∧
    (∀ (g : Filter) (b : Bool),
      (step g (Event.reqWantForcedUpgrade b)).state =
        upgradeChanged { g with upgradeFrom := { g.upgradeFrom with force := b } }) := by
  have hiff : (upgradeChanged f).outUpgrade = true ↔
      (upgradeDecisionSpec f.life f.upgradeFrom.url f.upgradeFrom.force au
        f.upgradeAvailable.force).isSome := by
    rw [upgradeChanged_armed_iff]
    by_cases hl : f.life = Life.Alive
    · rcases hfu : f.upgradeFrom.url with _ | fu
      · simp [upgradeArms, upgradeDecisionSpec, hl, hfu]
      · by_cases hne : au = fu
        · simp [upgradeArms, upgradeDecisionSpec, hl, hfu, hau, hne]
        · by_cases hforce : f.upgradeAvailable.force = true ∨ f.upgradeFrom.force = false
          · simp [upgradeArms, upgradeDecisionSpec, hl, hfu, hau, hne, hforce]
          · simp [upgradeArms, upgradeDecisionSpec, hl, hfu, hau, hne, hforce]
    · simp [upgradeArms, upgradeDecisionSpec, hl]
  refine ⟨hiff, ?_, ?_, ?_, ?_⟩
  · intro h
    rw [upgradeChanged_armed_upgrade f h, hau]
    have hsome := hiff.mp h
    unfold upgradeDecisionSpec at hsome ⊢
    split at hsome
    · simp at hsome
    · split at hsome
      · simp at hsome
      · split at hsome
        · simp at hsome
        · split at hsome
          · simp [*]
          · simp at hsome
  · intro g s dE herr
    have hstep : step g (Event.serviceNotify (Except.ok s) dE) =
        match serviceChanged g (Except.ok s) dE with
        | .ok f' => ⟨f', [], none⟩
        | .error err => ⟨g, [], some err⟩ := rfl
    rcases hsc : serviceChanged g (Except.ok s) dE with err | f'
    · rw [hstep, hsc] at herr; simp at herr
    · rw [hstep, hsc]
      obtain ⟨s', hs', _, _, hf'⟩ := serviceChanged_ok_shape hsc
      have : s' = s := by injection hs' with h'; exact h'.symm
      subst this
      exact hf'
  · intro g curl
    by_cases hc : g.configWatcherActive = true
    · simp [step, hc]
    · simp [step, hc]
  · intro g b
    rfl

/-- Witness for C1 at a concrete state: unit on `cs:foo-1`, service
announcing `cs:foo-2`. -/
theorem upgradeChanged_implements_spec_rules_witness :
    ((upgradeChanged exampleAvail).outUpgrade = true ↔
      (upgradeDecisionSpec exampleAvail.life exampleAvail.upgradeFrom.url
        exampleAvail.upgradeFrom.force "cs:foo-2"
        exampleAvail.upgradeAvailable.force).isSome) ∧
    ((upgradeChanged exampleAvail).outUpgrade = true →
      (upgradeChanged exampleAvail).upgrade =
        upgradeDecisionSpec exampleAvail.life exampleAvail.upgradeFrom.url
          exampleAvail.upgradeFrom.force "cs:foo-2"
          exampleAvail.upgradeAvailable.force) ∧
    (∀ (g : Filter) (s : ServiceInfo) (dE : Option String),
      (step g (Event.serviceNotify (Except.ok s) dE)).error = none →
      (step g (Event.serviceNotify (Except.ok s) dE)).state =
        upgradeChanged { g with upgradeAvailable := ⟨some s.curl, s.force⟩ }) ∧
    (∀ (g : Filter) (curl : CharmURL),
      (step g (Event.reqSetCharm curl none none none none)).state =
        upgradeChanged { g with
          configWatcherActive := true,
          upgradeFrom := { g.upgradeFrom with url := some curl } }) ∧
    (∀ (g : Filter) (b : Bool),
      (step g (Event.reqWantForcedUpgrade b)).state =
        upgradeChanged { g with upgradeFrom := { g.upgradeFrom with force := b } }) :=
  upgradeChanged_implements_spec_rules exampleAvail "cs:foo-2" rfl

/-! ### C9 -/

/-- C9: at the end of the loop's startup the upgrade output is disarmed —
even when the service's announced charm URL differs from the unit's adopted
charm URL — because `upgradeFrom.url` is assigned only after the initial
`serviceChanged` has run; and from a state with the upgrade output
disarmed, only a service notification, a SetCharm request, or a
WantUpgradeEvent request can arm it. -/
theorem initLoop_upgrade_disarmed (d : InitData) (f : Filter)
    (h : initLoop d = Except.ok f) :
    f.outUpgrade = false ∧
    (∀ (g : Filter) (e : Event), g.outUpgrade = false →
      (∀ r dE, e ≠ Event.serviceNotify r dE) →
      (∀ curl a b c2 d2, e ≠ Event.reqSetCharm curl a b c2 d2) →
      (∀ b, e ≠ Event.reqWantForcedUpgrade b) →
      (step g e).state.outUpgrade = false) := by
  constructor
  · unfold initLoop at h
    rcases huc : unitChanged initialFilter d.unitRefresh with err | f1
    · simp [huc] at h
    · simp only [huc] at h
      rcases hsc : serviceChanged f1 d.serviceRefresh d.destroyErr with err | f2
      · simp [hsc] at h
      · simp only [hsc] at h
        obtain ⟨u, gm, -, hf1, -, -, hupf, -, -, -, -, -, -, -, -, -, -⟩ :=
          unitChanged_ok_shape huc
        have hf1url : f1.upgradeFrom.url = none := by
          rw [hf1, resolvedUpdate_upgradeFrom, hupf]; rfl
        obtain ⟨s, -, -, -, hf2⟩ := serviceChanged_ok_shape hsc
        have hf2out : f2.outUpgrade = false := by
          rw [hf2, upgradeChanged_eq]
          split
          · rename_i harm
            obtain ⟨-, fu, au, hfu, -⟩ := harm
            rw [show ({ f1 with upgradeAvailable :=
                (⟨some s.curl, s.force⟩ : ServiceCharm) } : Filter).upgradeFrom.url =
                f1.upgradeFrom.url from rfl, hf1url] at hfu
            exact absurd hfu (by simp)
          · rfl
        rcases hcu : d.unitCharmURL with _ | curl
        · simp only [hcu, Except.ok.injEq] at h
          rw [← h]; exact hf2out
        · simp only [hcu] at h
          rcases hw : d.watchConfigErr with _ | e
          · simp only [hw, Except.ok.injEq] at h
            rw [← h]; exact hf2out
          · simp [hw] at h
  · intro g e hg h1 h2 h3
    cases e with
    | unitNotify r =>
      have hstep : step g (Event.unitNotify r) =
          match unitChanged g r with
          | .ok f' => ⟨f', [], none⟩
          | .error err => ⟨g, [], some err⟩ := rfl
      rcases huc : unitChanged g r with err | g'
      · rw [hstep, huc]; exact hg
      · rw [hstep, huc]
        obtain ⟨u, gm, -, hg', -, -, -, -, -, -, -, -, -, -, hmono, -, -⟩ :=
          unitChanged_ok_shape huc
        simp only
        rw [hg', resolvedUpdate_outUpgrade]
        cases hgm : gm.outUpgrade
        · rfl
        · rw [hmono hgm] at hg; exact hg
    | serviceNotify r dE => exact absurd rfl (h1 r dE)
    | configNotify => exact hg
    | relationsNotify ids =>
      show (relationsChanged g ids).outUpgrade = false
      rw [relationsChanged_outUpgrade]; exact hg
    | deliverUpgrade => rfl
    | deliverResolved => exact hg
    | deliverConfig => exact hg
    | deliverRelations => exact hg
    | reqSetCharm curl a b c2 d2 => exact absurd rfl (h2 curl a b c2 d2)
    | reqWantForcedUpgrade b => exact absurd rfl (h3 b)
    | reqWantResolved =>
      show (if g.resolved ≠ ResolvedMode.ResolvedNone then
        { g with outResolved := true } else g).outUpgrade = false
      split
      · exact hg
      · exact hg
    | reqClearResolved cErr r =>
      rcases hc : cErr with _ | e
      · have hstep : step g (Event.reqClearResolved none r) =
            match unitChanged { g with outResolved := false } r with
            | .error err => ⟨{ g with outResolved := false }, [], some err⟩
            | .ok g' => ⟨g', [Output.clearResolvedAck], none⟩ := rfl
        rcases huc : unitChanged { g with outResolved := false } r with err | g'
        · rw [hstep, huc]; exact hg
        · rw [hstep, huc]
          obtain ⟨u, gm, -, hg', -, -, -, -, -, -, -, -, -, -, hmono, -, -⟩ :=
            unitChanged_ok_shape huc
          simp only
          rw [hg', resolvedUpdate_outUpgrade]
          cases hgm : gm.outUpgrade
          · rfl
          · have := hmono hgm
            rw [show ({ g with outResolved := false } : Filter).outUpgrade =
              g.outUpgrade from rfl] at this
            rw [this] at hg; exact hg
      · exact hg
    | reqDiscardConfig => exact hg

/-- Witness for C9: startup where the service announces `cs:foo-2` while the
unit runs `cs:foo-1`, yet the upgrade output ends up disarmed. -/
theorem initLoop_upgrade_disarmed_witness :
    initLoop exampleInit = Except.ok exampleStartup ∧
    exampleStartup.outUpgrade = false :=
  ⟨by decide, (initLoop_upgrade_disarmed exampleInit exampleStartup (by decide)).1⟩

/-! ### C6 -/

/-- C6 counterexample: on a service notification that finds the service
Dying (and whose unit-destroy succeeds), the loop nevertheless refreshes
`upgradeAvailable` from the announced charm and re-evaluates upgrade arming
— here arming an upgrade event — contradicting the claim that the refresh
and re-evaluation happen only when the service is neither Dying nor Dead. -/
theorem serviceChanged_dying_rearms :
    (step exampleAvail
      (Event.serviceNotify (Except.ok ⟨Life.Dying, "cs:foo-2", false⟩) none)).error = none ∧
    (step exampleAvail
      (Event.serviceNotify (Except.ok ⟨Life.Dying, "cs:foo-2", false⟩) none)).state.upgradeAvailable
      = ⟨some "cs:foo-2", false⟩ ∧
    (step exampleAvail
      (Event.serviceNotify (Except.ok ⟨Life.Dying, "cs:foo-2", false⟩) none)).state.outUpgrade
      = true := by
  decide

/-- C6 amended: on every service notification the loop re-reads the service;
NotFound terminates with the fatal error "service unexpectedly removed" and
any other refresh error with that error. On a successful re-read the loop
always refreshes `upgradeAvailable` from the announced charm URL and force
flag; then: service Dead terminates with the fatal error "service
unexpectedly dead"; service Dying requests unit destruction, propagating a
destroy error, and on successful destruction still re-evaluates upgrade
arming; service Alive re-evaluates upgrade arming. -/
theorem serviceChanged_characterization (f : Filter) :
    (∀ dE, step f (Event.serviceNotify (Except.error RefreshErr.notFound) dE) =
      ⟨f, [], some (LoopError.fatal "service unexpectedly removed")⟩) ∧
    (∀ dE msg, step f (Event.serviceNotify (Except.error (RefreshErr.other msg)) dE) =
      ⟨f, [], some (LoopError.backend msg)⟩) ∧
    (∀ (s : ServiceInfo) dE, s.life = Life.Dead →
      step f (Event.serviceNotify (Except.ok s) dE) =
        ⟨f, [], some (LoopError.fatal "service unexpectedly dead")⟩) ∧
    (∀ (s : ServiceInfo) msg, s.life = Life.Dying →
      step f (Event.serviceNotify (Except.ok s) (some msg)) =
        ⟨f, [], some (LoopError.backend msg)⟩) ∧
    (∀ (s : ServiceInfo), s.life = Life.Dying →
      step f (Event.serviceNotify (Except.ok s) none) =
        ⟨upgradeChanged { f with upgradeAvailable := ⟨some s.curl, s.force⟩ }, [], none⟩) ∧
    (∀ (s : ServiceInfo) dE, s.life = Life.Alive →
      step f (Event.serviceNotify (Except.ok s) dE) =
        ⟨upgradeChanged { f with upgradeAvailable := ⟨some s.curl, s.force⟩ }, [], none⟩) := by
  refine ⟨fun dE => rfl, fun dE msg => rfl, ?_, ?_, ?_, ?_⟩
  · intro s dE hs
    simp [step, serviceChanged, hs]
  · intro s msg hs
    simp [step, serviceChanged, hs]
  · intro s hs
    simp [step, serviceChanged, hs]
  · intro s dE hs
    simp [step, serviceChanged, hs]

/-- Witness for the amended C6 at concrete inputs. -/
theorem serviceChanged_characterization_witness :
    step exampleAvail (Event.serviceNotify (Except.ok ⟨Life.Alive, "cs:foo-2", false⟩) none) =
      ⟨upgradeChanged { exampleAvail with upgradeAvailable := ⟨some "cs:foo-2", false⟩ },
        [], none⟩ :=
  (serviceChanged_characterization exampleAvail).2.2.2.2.2 ⟨Life.Alive, "cs:foo-2", false⟩
    none rfl

/-! ### C4 -/

/-- A filter with a config event armed (and the config watcher running). -/
def exampleArmedConfig : Filter :=
  { exampleAvail with
    outConfig := true, configWatcherActive := true, discardConfigEnabled := true }

/-- C4 counterexample: with a config event armed, a SetCharm request
completes successfully (acknowledgement delivered, no error) and the
pending config event is still armed afterwards — SetCharm does not wipe
the pending config state, contrary to the claim. -/
theorem setCharm_does_not_wipe_config :
    (step exampleArmedConfig (Event.reqSetCharm "cs:foo-2" none none none none)).error
      = none ∧
    (step exampleArmedConfig (Event.reqSetCharm "cs:foo-2" none none none none)).outputs
      = [Output.setCharmAck] ∧
    (step exampleArmedConfig (Event.reqSetCharm "cs:foo-2" none none none none)).state.outConfig
      = true := by
  decide

/-- C4 amended: the config event is armed exactly by config watcher
notifications and disarmed exactly by a successful delivery or an explicit
DiscardConfigEvent; a completed SetCharm leaves the armed state unchanged
(it does not wipe a pending config event). -/
theorem config_arming_characterization :
    (∀ f : Filter, (step f Event.configNotify).state.outConfig = true) ∧
    (∀ (f : Filter) (e : Event), f.outConfig = false → e ≠ Event.configNotify →
      (step f e).state.outConfig = false) ∧
    (∀ (f : Filter) (e : Event), f.outConfig = true → e ≠ Event.deliverConfig →
      e ≠ Event.reqDiscardConfig → (step f e).state.outConfig = true) ∧
    (∀ f : Filter, (step f Event.deliverConfig).state.outConfig = false) ∧
    (∀ f : Filter, (step f Event.reqDiscardConfig).state.outConfig = false) ∧
    (∀ (f : Filter) (curl : CharmURL) (o1 o2 o3 o4 : Option String),
      (step f (Event.reqSetCharm curl o1 o2 o3 o4)).state.outConfig = f.outConfig) := by
  have hconst : ∀ (f : Filter) (e : Event), e ≠ Event.configNotify →
      e ≠ Event.deliverConfig → e ≠ Event.reqDiscardConfig →
      (step f e).state.outConfig = f.outConfig := by
    intro f e h1 h2 h3
    cases e with
    | unitNotify r =>
      have hstep : step f (Event.unitNotify r) =
          match unitChanged f r with
          | .ok f' => ⟨f', [], none⟩
          | .error err => ⟨f, [], some err⟩ := rfl
      rcases huc : unitChanged f r with err | f'
      · rw [hstep, huc]
      · rw [hstep, huc]
        obtain ⟨u, gm, -, hf', -, -, -, -, -, -, hoc, -, -, -, -, -, -⟩ :=
          unitChanged_ok_shape huc
        simp only
        rw [hf', resolvedUpdate_outConfig, hoc]
    | serviceNotify r dE =>
      have hstep : step f (Event.serviceNotify r dE) =
          match serviceChanged f r dE with
          | .ok f' => ⟨f', [], none⟩
          | .error err => ⟨f, [], some err⟩ := rfl
      rcases hsc : serviceChanged f r dE with err | f'
      · rw [hstep, hsc]
      · rw [hstep, hsc]
        obtain ⟨s, -, -, -, hf'⟩ := serviceChanged_ok_shape hsc
        simp only
        rw [hf', upgradeChanged_outConfig]
    | configNotify => exact absurd rfl h1
    | relationsNotify ids =>
      show (relationsChanged f ids).outConfig = f.outConfig
      rw [relationsChanged_outConfig]
    | deliverUpgrade => rfl
    | deliverResolved => rfl
    | deliverConfig => exact absurd rfl h2
    | deliverRelations => rfl
    | reqSetCharm curl o1 o2 o3 o4 =>
      rcases ho1 : (if f.configWatcherActive then o1 else none) with _ | e1
      · rcases ho2 : o2 with _ | e2
        · rcases ho3 : o3 with _ | e3
          · rcases ho4 : o4 with _ | e4
            · simp [step, ho1, ho2, ho3, ho4]
            · simp [step, ho1, ho2, ho3, ho4]
          · simp [step, ho1, ho2, ho3]
        · simp [step, ho1, ho2]
      · simp [step, ho1]
    | reqWantForcedUpgrade b =>
      show (upgradeChanged _).outConfig = f.outConfig
      rw [upgradeChanged_outConfig]
    | reqWantResolved =>
      show (if f.resolved ≠ ResolvedMode.ResolvedNone then
        { f with outResolved := true } else f).outConfig = f.outConfig
      split <;> rfl
    | reqClearResolved cErr r =>
      rcases hc : cErr with _ | e
      · have hstep : step f (Event.reqClearResolved none r) =
            match unitChanged { f with outResolved := false } r with
            | .error err => ⟨{ f with outResolved := false }, [], some err⟩
            | .ok f' => ⟨f', [Output.clearResolvedAck], none⟩ := rfl
        rcases huc : unitChanged { f with outResolved := false } r with err | f'
        · rw [hstep, huc]
        · rw [hstep, huc]
          obtain ⟨u, gm, -, hf', -, -, -, -, -, -, hoc, -, -, -, -, -, -⟩ :=
            unitChanged_ok_shape huc
          simp only
          rw [hf', resolvedUpdate_outConfig, hoc]
      · rfl
    | reqDiscardConfig => exact absurd rfl h3
  refine ⟨fun f => rfl, ?_, ?_, fun f => rfl, fun f => rfl, ?_⟩
  · intro f e hf h1
    by_cases h2 : e = Event.deliverConfig
    · subst h2; rfl
    · by_cases h3 : e = Event.reqDiscardConfig
      · subst h3; rfl
      · rw [hconst f e h1 h2 h3]; exact hf
  · intro f e hf h2 h3
    by_cases h1 : e = Event.configNotify
    · subst h1; rfl
    · rw [hconst f e h1 h2 h3]; exact hf
  · intro f curl o1 o2 o3 o4
    have h1 : Event.reqSetCharm curl o1 o2 o3 o4 ≠ Event.configNotify := by
      intro hc; exact Event.noConfusion hc
    have h2 : Event.reqSetCharm curl o1 o2 o3 o4 ≠ Event.deliverConfig := by
      intro hc; exact Event.noConfusion hc
    have h3 : Event.reqSetCharm curl o1 o2 o3 o4 ≠ Event.reqDiscardConfig := by
      intro hc; exact Event.noConfusion hc
    exact hconst f _ h1 h2 h3

/-- Witness for the amended C4 at concrete states: a config notification
arms; an armed event survives a further config notification; a completed
SetCharm leaves the armed flag unchanged. -/
theorem config_arming_characterization_witness :
    (step exampleAvail Event.configNotify).state.outConfig = true ∧
    (step exampleArmedConfig Event.configNotify).state.outConfig = true ∧
    (step exampleArmedConfig
      (Event.reqSetCharm "cs:foo-2" none none none none)).state.outConfig
      = exampleArmedConfig.outConfig :=
  ⟨config_arming_characterization.1 exampleAvail,
   config_arming_characterization.2.2.1 exampleArmedConfig Event.configNotify rfl
     (fun hc => Event.noConfusion hc) (fun hc => Event.noConfusion hc),
   config_arming_characterization.2.2.2.2.2 exampleArmedConfig "cs:foo-2"
     none none none none⟩

/-! ### C2 -/

/-- C2 counterexample: a SetCharm whose fresh config watcher fails to start
has already delivered the acknowledgement to the caller; the loop then
terminates with the error — the caller observed the acknowledgement, not
(only) the dying signal, contradicting the claim that on any backend
failure the caller observes termination rather than an acknowledgement. -/
theorem setCharm_ack_before_watch_failure :
    (step exampleArmedConfig
      (Event.reqSetCharm "cs:foo-2" none none (some "boom") none)).outputs
      = [Output.setCharmAck] ∧
    (step exampleArmedConfig
      (Event.reqSetCharm "cs:foo-2" none none (some "boom") none)).error
      = some (LoopError.backend "boom") := by
  decide

/-- C2 amended: the loop performs the SetCharm steps in the spec's order —
stop config watcher, persist the charm URL, acknowledge, start the fresh
config watcher, restart the relations watcher, update `UpgradeFrom.url`,
re-run upgrade arming — and any backend failure terminates the loop with
that error; but only failures in the first two steps (before the
acknowledgement) leave the caller observing termination via the dying
signal: failures while starting the fresh config watcher or restarting the
relations watcher occur after the acknowledgement has been delivered. -/
theorem setCharm_characterization (f : Filter) (curl : CharmURL) :
    (∀ e1 o2 o3 o4, f.configWatcherActive = true →
      step f (Event.reqSetCharm curl (some e1) o2 o3 o4) =
        ⟨f, [], some (LoopError.backend e1)⟩) ∧
    (∀ e2 o3 o4, step f (Event.reqSetCharm curl none (some e2) o3 o4) =
      ⟨f, [], some (LoopError.backend e2)⟩) ∧
    (∀ e3 o4, step f (Event.reqSetCharm curl none none (some e3) o4) =
      ⟨f, [Output.setCharmAck], some (LoopError.backend e3)⟩) ∧
    (∀ e4, step f (Event.reqSetCharm curl none none none (some e4)) =
      ⟨f, [Output.setCharmAck], some (LoopError.backend e4)⟩) ∧
    (step f (Event.reqSetCharm curl none none none none) =
      ⟨upgradeChanged { f with
          configWatcherActive := true,
          upgradeFrom := { f.upgradeFrom with url := some curl } },
        [Output.setCharmAck], none⟩) := by
  refine ⟨?_, ?_, ?_, ?_, ?_⟩
  · intro e1 o2 o3 o4 hcw
    simp [step, hcw]
  · intro e2 o3 o4
    by_cases hcw : f.configWatcherActive = true <;> simp [step, hcw]
  · intro e3 o4
    by_cases hcw : f.configWatcherActive = true <;> simp [step, hcw]
  · intro e4
    by_cases hcw : f.configWatcherActive = true <;> simp [step, hcw]
  · by_cases hcw : f.configWatcherActive = true <;> simp [step, hcw]

/-- Witness for the amended C2 at concrete inputs. -/
theorem setCharm_characterization_witness :
    step exampleArmedConfig (Event.reqSetCharm "cs:foo-2" (some "stopfail") none none none) =
      ⟨exampleArmedConfig, [], some (LoopError.backend "stopfail")⟩ :=
  (setCharm_characterization exampleArmedConfig "cs:foo-2").1 "stopfail" none none none rfl

/-! ### C3 -/

/-- Startup data: unit Alive with resolved = RetryHooks, service Alive on
`cs:foo-1`, all backend calls succeeding. -/
def exampleResolvedInit : InitData :=
  ⟨Except.ok ⟨Life.Alive, ResolvedMode.ResolvedRetryHooks⟩,
   Except.ok ⟨Life.Alive, "cs:foo-1", false⟩, none, some "cs:foo-1", none⟩

/-- The state after `initLoop exampleResolvedInit`: resolved output armed
with resolved = RetryHooks. -/
def exampleResolvedState : Filter :=
  { initialFilter with
    resolved := ResolvedMode.ResolvedRetryHooks,
    upgradeFrom := ⟨some "cs:foo-1", false⟩,
    upgradeAvailable := ⟨some "cs:foo-1", false⟩,
    outResolved := true,
    configWatcherActive := true }

/-- `exampleResolvedState` after the unit's resolved flag regresses to None
and the armed resolved event is delivered. -/
def exampleResolvedAfter : Filter :=
  { exampleResolvedState with
    resolved := ResolvedMode.ResolvedNone,
    outResolved := false }

/-- C3 failing trace: from a reachable state with the resolved output armed
(resolved = RetryHooks), a unit notification that reports resolved back to
None updates the cache but leaves the output armed (filter.go:420-425 never
disarms), so the next delivery sends `ResolvedNone` — contradicting the
claim (and the `ResolvedEvents` doc comment, filter.go:142-145, which
promises that a ResolvedNone state never generates events). -/
theorem resolved_none_delivered :
    initLoop exampleResolvedInit = Except.ok exampleResolvedState ∧
    runOk exampleResolvedState
        [Event.unitNotify (Except.ok ⟨Life.Alive, ResolvedMode.ResolvedNone⟩),
         Event.deliverResolved] =
      some (exampleResolvedAfter, [Output.resolvedSent ResolvedMode.ResolvedNone]) := by
  decide

/-! ### More helper lemmas for trace invariants -/

lemma unitChanged_preserves {f f' : Filter} {r : Except RefreshErr UnitInfo}
    (h : unitChanged f r = .ok f') :
    f'.upgradeFrom = f.upgradeFrom ∧ f'.upgradeAvailable = f.upgradeAvailable ∧
    f'.upgrade = f.upgrade ∧ f'.relations = f.relations ∧
    f'.outConfig = f.outConfig ∧ f'.outRelations = f.outRelations ∧
    f'.configWatcherActive = f.configWatcherActive ∧
    f'.discardConfigEnabled = f.discardConfigEnabled ∧
    (f'.outUpgrade = true → f.outUpgrade = true) ∧
    (f.unitDyingClosed = true → f'.unitDyingClosed = true) := by
  obtain ⟨u, g, -, hf', hres, hores, hupf, hupa, hup, hrel, hoc, hor, hcw, hdc,
    hmono, hdmono, hlife⟩ := unitChanged_ok_shape h
  subst hf'
  refine ⟨?_, ?_, ?_, ?_, ?_, ?_, ?_, ?_, ?_, ?_⟩
  · rw [resolvedUpdate_upgradeFrom, hupf]
  · rw [resolvedUpdate_upgradeAvailable, hupa]
  · rw [resolvedUpdate_upgrade, hup]
  · rw [resolvedUpdate_relations, hrel]
  · rw [resolvedUpdate_outConfig, hoc]
  · rw [resolvedUpdate_outRelations, hor]
  · rw [resolvedUpdate_configWatcherActive, hcw]
  · rw [resolvedUpdate_discardConfigEnabled, hdc]
  · rw [resolvedUpdate_outUpgrade]; exact hmono
  · rw [resolvedUpdate_unitDyingClosed]; exact hdmono

/-- The life cached by a successful `unitChanged` is the refreshed life. -/
lemma unitChanged_life {f f' : Filter} {u : UnitInfo}
    (h : unitChanged f (Except.ok u) = .ok f') : f'.life = u.life := by
  obtain ⟨u', g, hu, hf', -, -, -, -, -, -, -, -, -, -, -, -, hlife⟩ :=
    unitChanged_ok_shape h
  have : u' = u := by injection hu with h'; exact h'.symm
  subst this hf'
  rw [resolvedUpdate_life, hlife]

lemma serviceChanged_preserves {f f' : Filter} {r : Except RefreshErr ServiceInfo}
    {dErr : Option String} (h : serviceChanged f r dErr = .ok f') :
    f'.life = f.life ∧ f'.resolved = f.resolved ∧ f'.outResolved = f.outResolved ∧
    f'.upgradeFrom = f.upgradeFrom ∧ f'.relations = f.relations ∧
    f'.outConfig = f.outConfig ∧ f'.outRelations = f.outRelations ∧
    f'.unitDyingClosed = f.unitDyingClosed ∧
    f'.configWatcherActive = f.configWatcherActive ∧
    f'.discardConfigEnabled = f.discardConfigEnabled := by
  obtain ⟨s, -, -, -, hf'⟩ := serviceChanged_ok_shape h
  subst hf'
  refine ⟨?_, ?_, ?_, ?_, ?_, ?_, ?_, ?_, ?_, ?_⟩ <;> simp

/-- The three possible outcomes of a SetCharm iteration: failure before the
acknowledgement (state untouched), failure after the acknowledgement (state
untouched, loop dead), or success. -/
lemma setCharm_step_cases (f : Filter) (curl : CharmURL) (o1 o2 o3 o4 : Option String) :
    (∃ msg, step f (Event.reqSetCharm curl o1 o2 o3 o4) =
      ⟨f, [], some (LoopError.backend msg)⟩) ∨
    (∃ msg, step f (Event.reqSetCharm curl o1 o2 o3 o4) =
      ⟨f, [Output.setCharmAck], some (LoopError.backend msg)⟩) ∨
    step f (Event.reqSetCharm curl o1 o2 o3 o4) =
      ⟨upgradeChanged { f with
          configWatcherActive := true,
          upgradeFrom := { f.upgradeFrom with url := some curl } },
        [Output.setCharmAck], none⟩ := by
  rcases ho1 : (if f.configWatcherActive then o1 else none) with _ | e1
  · rcases ho2 : o2 with _ | e2
    · rcases ho3 : o3 with _ | e3
      · rcases ho4 : o4 with _ | e4
        · right; right; simp [step, ho1, ho2, ho3, ho4]
        · right; left; exact ⟨e4, by simp [step, ho1, ho2, ho3, ho4]⟩
      · right; left; exact ⟨e3, by simp [step, ho1, ho2, ho3]⟩
    · left; exact ⟨e2, by simp [step, ho1, ho2]⟩
  · left; exact ⟨e1, by simp [step, ho1]⟩

/-- Everything a single iteration can send to the consumer. -/
lemma step_outputs_cases (f : Filter) (e : Event) :
    (step f e).outputs = [] ∨
    ((step f e).outputs = [Output.upgradeSent f.upgrade] ∧ e = Event.deliverUpgrade) ∨
    ((step f e).outputs = [Output.resolvedSent f.resolved] ∧ e = Event.deliverResolved) ∨
    ((step f e).outputs = [Output.configSent] ∧ e = Event.deliverConfig) ∨
    ((step f e).outputs = [Output.relationsSent f.relations] ∧ e = Event.deliverRelations) ∨
    (step f e).outputs = [Output.setCharmAck] ∨
    (step f e).outputs = [Output.clearResolvedAck] := by
  cases e with
  | unitNotify r =>
    left
    have hstep : step f (Event.unitNotify r) =
        match unitChanged f r with
        | .ok f' => ⟨f', [], none⟩
        | .error err => ⟨f, [], some err⟩ := rfl
    rcases huc : unitChanged f r with err | f' <;> rw [hstep, huc]
  | serviceNotify r dE =>
    left
    have hstep : step f (Event.serviceNotify r dE) =
        match serviceChanged f r dE with
        | .ok f' => ⟨f', [], none⟩
        | .error err => ⟨f, [], some err⟩ := rfl
    rcases hsc : serviceChanged f r dE with err | f' <;> rw [hstep, hsc]
  | configNotify => left; rfl
  | relationsNotify ids => left; rfl
  | deliverUpgrade => right; left; exact ⟨rfl, rfl⟩
  | deliverResolved => right; right; left; exact ⟨rfl, rfl⟩
  | deliverConfig => right; right; right; left; exact ⟨rfl, rfl⟩
  | deliverRelations => right; right; right; right; left; exact ⟨rfl, rfl⟩
  | reqSetCharm curl o1 o2 o3 o4 =>
    rcases setCharm_step_cases f curl o1 o2 o3 o4 with ⟨msg, hs⟩ | ⟨msg, hs⟩ | hs
    · left; rw [hs]
    · right; right; right; right; right; left; rw [hs]
    · right; right; right; right; right; left; rw [hs]
  | reqWantForcedUpgrade b => left; rfl
  | reqWantResolved =>
    left
    show (if f.resolved ≠ ResolvedMode.ResolvedNone then
      ({ f with outResolved := true } : Filter) else f, [],
      (none : Option LoopError)).2.1 = ([] : List Output)
    rfl
  | reqClearResolved cErr r =>
    rcases hc : cErr with _ | e1
    · have hstep : step f (Event.reqClearResolved none r) =
          match unitChanged { f with outResolved := false } r with
          | .error err => ⟨{ f with outResolved := false }, [], some err⟩
          | .ok f' => ⟨f', [Output.clearResolvedAck], none⟩ := rfl
      rcases huc : unitChanged { f with outResolved := false } r with err | f'
      · left; rw [hstep, huc]
      · right; right; right; right; right; right; rw [hstep, huc]
    · left; rfl
  | reqDiscardConfig => left; rfl

/-- `discardConfigEnabled` after one iteration: preserved, except that a
config notification sets it. -/
lemma step_discard_cases (f : Filter) (e : Event) :
    (step f e).state.discardConfigEnabled = f.discardConfigEnabled ∨
    (e = Event.configNotify ∧ (step f e).state.discardConfigEnabled = true) := by
  cases e with
  | unitNotify r =>
    left
    have hstep : step f (Event.unitNotify r) =
        match unitChanged f r with
        | .ok f' => ⟨f', [], none⟩
        | .error err => ⟨f, [], some err⟩ := rfl
    rcases huc : unitChanged f r with err | f'
    · rw [hstep, huc]
    · rw [hstep, huc]
      exact (unitChanged_preserves huc).2.2.2.2.2.2.2.1
  | serviceNotify r dE =>
    left
    have hstep : step f (Event.serviceNotify r dE) =
        match serviceChanged f r dE with
        | .ok f' => ⟨f', [], none⟩
        | .error err => ⟨f, [], some err⟩ := rfl
    rcases hsc : serviceChanged f r dE with err | f'
    · rw [hstep, hsc]
    · rw [hstep, hsc]
      exact (serviceChanged_preserves hsc).2.2.2.2.2.2.2.2.2
  | configNotify => right; exact ⟨rfl, rfl⟩
  | relationsNotify ids =>
    left
    exact relationsChanged_discardConfigEnabled f ids
  | deliverUpgrade => left; rfl
  | deliverResolved => left; rfl
  | deliverConfig => left; rfl
  | deliverRelations => left; rfl
  | reqSetCharm curl o1 o2 o3 o4 =>
    left
    rcases setCharm_step_cases f curl o1 o2 o3 o4 with ⟨msg, hs⟩ | ⟨msg, hs⟩ | hs <;>
      rw [hs]
    simp
  | reqWantForcedUpgrade b =>
    left
    show (upgradeChanged _).discardConfigEnabled = f.discardConfigEnabled
    rw [upgradeChanged_discardConfigEnabled]
  | reqWantResolved =>
    left
    show (if f.resolved ≠ ResolvedMode.ResolvedNone then
      ({ f with outResolved := true } : Filter) else f).discardConfigEnabled =
      f.discardConfigEnabled
    split <;> rfl
  | reqClearResolved cErr r =>
    left
    rcases hc : cErr with _ | e1
    · have hstep : step f (Event.reqClearResolved none r) =
          match unitChanged { f with outResolved := false } r with
          | .error err => ⟨{ f with outResolved := false }, [], some err⟩
          | .ok f' => ⟨f', [Output.clearResolvedAck], none⟩ := rfl
      rcases huc : unitChanged { f with outResolved := false } r with err | f'
      · rw [hstep, huc]
      · rw [hstep, huc]
        exact (unitChanged_preserves huc).2.2.2.2.2.2.2.1
    · rfl
  | reqDiscardConfig => left; rfl

/-- Fields of the state produced by a successful loop startup that are still
at their zero value. -/
lemma initLoop_ok_fields {d : InitData} {f : Filter} (h : initLoop d = Except.ok f) :
    f.relations = [] ∧ f.outRelations = false ∧ f.outConfig = false ∧
    f.discardConfigEnabled = false := by
  unfold initLoop at h
  rcases huc : unitChanged initialFilter d.unitRefresh with err | f1
  · simp [huc] at h
  · simp only [huc] at h
    rcases hsc : serviceChanged f1 d.serviceRefresh d.destroyErr with err | f2
    · simp [hsc] at h
    · simp only [hsc] at h
      have h1 := unitChanged_preserves huc
      have h2 := serviceChanged_preserves hsc
      have hf2 : f2.relations = [] ∧ f2.outRelations = false ∧ f2.outConfig = false ∧
          f2.discardConfigEnabled = false := by
        refine ⟨?_, ?_, ?_, ?_⟩
        · rw [h2.2.2.2.2.1, h1.2.2.2.1]; rfl
        · rw [h2.2.2.2.2.2.2.1, h1.2.2.2.2.2.1]; rfl
        · rw [h2.2.2.2.2.2.1, h1.2.2.2.2.1]; rfl
        · rw [h2.2.2.2.2.2.2.2.2.2, h1.2.2.2.2.2.2.2.1]; rfl
      rcases hcu : d.unitCharmURL with _ | curl
      · simp only [hcu, Except.ok.injEq] at h
        rw [← h]; exact hf2
      · simp only [hcu] at h
        rcases hw : d.watchConfigErr with _ | e
        · simp only [hw, Except.ok.injEq] at h
          rw [← h]; exact hf2
        · simp [hw] at h

/-! ### C10 -/

/-- C10: the gate enabling DiscardConfigEvent opens at the first config
watcher notification and never closes again: any event (including a
completed SetCharm) preserves an open gate; startup leaves it closed, and
it stays closed along any run containing no config notification; and the
discard branch is selectable exactly when the gate is open (when closed, a
DiscardConfigEvent call blocks until the loop dies). -/
theorem discard_config_gate :
    (∀ f : Filter, (step f Event.configNotify).state.discardConfigEnabled = true) ∧
    (∀ (f : Filter) (e : Event), f.discardConfigEnabled = true →
      (step f e).state.discardConfigEnabled = true) ∧
    (∀ (d : InitData) (f0 : Filter), initLoop d = Except.ok f0 →
      f0.discardConfigEnabled = false) ∧
    (∀ (f fr : Filter) (t : List Event) (outs : List Output),
      f.discardConfigEnabled = false → (∀ e ∈ t, e ≠ Event.configNotify) →
      runOk f t = some (fr, outs) → fr.discardConfigEnabled = false) ∧
    (∀ f : Filter, eventEnabled f Event.reqDiscardConfig = f.discardConfigEnabled) := by
  refine ⟨fun f => rfl, ?_, ?_, ?_, fun f => rfl⟩
  · intro f e hf
    rcases step_discard_cases f e with hp | ⟨-, hp⟩
    · rw [hp]; exact hf
    · exact hp
  · intro d f0 h
    exact (initLoop_ok_fields h).2.2.2
  · intro f fr t outs hf hall hrun
    have := @runOk_inv (fun g => g.discardConfigEnabled = false)
      (fun _ => True) (fun e => e ≠ Event.configNotify)
      (by
        intro g e hg hne hen herr
        refine ⟨?_, fun o ho => trivial⟩
        rcases step_discard_cases g e with hp | ⟨hp, -⟩
        · rw [hp]; exact hg
        · exact absurd hp hne)
      t f fr outs hf hall hrun
    exact this.1

/-- Witness for C10: the startup state has the gate closed, and a config
notification opens it. -/
theorem discard_config_gate_witness :
    exampleStartup.discardConfigEnabled = false ∧
    (step exampleStartup Event.configNotify).state.discardConfigEnabled = true :=
  ⟨discard_config_gate.2.2.1 exampleInit exampleStartup (by decide),
   discard_config_gate.1 exampleStartup⟩

/-! ### C7 -/

lemma foldl_addId_nodup (ids : List Int) :
    ∀ acc : List Int, acc.Nodup →
      (List.foldl (fun acc id => if acc.contains id then acc else acc ++ [id]) acc
        ids).Nodup := by
  induction ids with
  | nil => intro acc h; exact h
  | cons a ids ih =>
    intro acc h
    simp only [List.foldl_cons]
    split
    · exact ih acc h
    · rename_i hc
      have hna : a ∉ acc := by simpa using hc
      exact ih _ (by simp [List.nodup_append, h, hna])

lemma foldl_addId_mem (ids : List Int) :
    ∀ (acc : List Int) (i : Int),
      i ∈ List.foldl (fun acc id => if acc.contains id then acc else acc ++ [id]) acc ids ↔
        i ∈ acc ∨ i ∈ ids := by
  induction ids with
  | nil => intro acc i; simp
  | cons a ids ih =>
    intro acc i
    simp only [List.foldl_cons]
    split
    · rename_i hc
      have ha : a ∈ acc := by simpa using hc
      rw [ih]
      constructor
      · rintro (h | h)
        · exact Or.inl h
        · exact Or.inr (List.mem_cons_of_mem a h)
      · rintro (h | h)
        · exact Or.inl h
        · rcases List.mem_cons.mp h with h | h
          · subst h; exact Or.inl ha
          · exact Or.inr h
    · rw [ih]
      simp only [List.mem_append, List.mem_singleton, List.mem_cons]
      tauto

lemma insertionSort_sorted_lt (l : List Int) (h : l.Nodup) :
    (l.insertionSort (· ≤ ·)).Sorted (· < ·) := by
  have hle : (l.insertionSort (· ≤ ·)).Pairwise (fun a b : Int => a ≤ b) :=
    List.sorted_insertionSort (· ≤ ·) l
  have hnd : (l.insertionSort (· ≤ ·)).Nodup :=
    (List.perm_insertionSort (· ≤ ·) l).symm.nodup h
  exact (hle.and hnd).imp (fun hab => lt_of_le_of_ne hab.1 hab.2)

/-- `relationsChanged` preserves duplicate-freeness of the pending list and
guarantees that an armed pending list is strictly sorted. -/
lemma relationsChanged_inv {f : Filter} (h : f.relations.Nodup) (ids : List Int) :
    (relationsChanged f ids).relations.Nodup ∧
    ((relationsChanged f ids).outRelations = true →
      (relationsChanged f ids).relations.Sorted (· < ·)) := by
  unfold relationsChanged
  dsimp only
  split
  · constructor
    · exact (List.perm_insertionSort (· ≤ ·) _).symm.nodup
        (foldl_addId_nodup ids f.relations h)
    · intro _
      exact insertionSort_sorted_lt _ (foldl_addId_nodup ids f.relations h)
  · rename_i hne
    have h0 : List.foldl (fun acc id => if acc.contains id then acc
        else acc ++ [id]) f.relations ids = [] := by
      by_contra hc
      exact hne hc
    constructor
    · rw [show ({ f with relations := List.foldl (fun acc id =>
        if acc.contains id then acc else acc ++ [id]) f.relations ids } :
        Filter).relations = _ from rfl, h0]
      exact List.nodup_nil
    · intro _
      rw [show ({ f with relations := List.foldl (fun acc id =>
        if acc.contains id then acc else acc ++ [id]) f.relations ids } :
        Filter).relations = _ from rfl, h0]
      exact List.sorted_nil

/-- The pending-relations fields after one iteration: untouched, recomputed
by `relationsChanged`, or cleared by a delivery. -/
lemma step_relations_cases (f : Filter) (e : Event) :
    ((step f e).state.relations = f.relations ∧
     (step f e).state.outRelations = f.outRelations) ∨
    (∃ ids, e = Event.relationsNotify ids ∧ (step f e).state = relationsChanged f ids) ∨
    (e = Event.deliverRelations ∧ (step f e).state.relations = [] ∧
     (step f e).state.outRelations = false) := by
  cases e with
  | unitNotify r =>
    left
    have hstep : step f (Event.unitNotify r) =
        match unitChanged f r with
        | .ok f' => ⟨f', [], none⟩
        | .error err => ⟨f, [], some err⟩ := rfl
    rcases huc : unitChanged f r with err | f'
    · rw [hstep, huc]; exact ⟨rfl, rfl⟩
    · rw [hstep, huc]
      have hp := unitChanged_preserves huc
      exact ⟨hp.2.2.2.1, hp.2.2.2.2.2.1⟩
  | serviceNotify r dE =>
    left
    have hstep : step f (Event.serviceNotify r dE) =
        match serviceChanged f r dE with
        | .ok f' => ⟨f', [], none⟩
        | .error err => ⟨f, [], some err⟩ := rfl
    rcases hsc : serviceChanged f r dE with err | f'
    · rw [hstep, hsc]; exact ⟨rfl, rfl⟩
    · rw [hstep, hsc]
      have hp := serviceChanged_preserves hsc
      exact ⟨hp.2.2.2.2.1, hp.2.2.2.2.2.2.1⟩
  | configNotify => left; exact ⟨rfl, rfl⟩
  | relationsNotify ids => right; left; exact ⟨ids, rfl, rfl⟩
  | deliverUpgrade => left; exact ⟨rfl, rfl⟩
  | deliverResolved => left; exact ⟨rfl, rfl⟩
  | deliverConfig => left; exact ⟨rfl, rfl⟩
  | deliverRelations => right; right; exact ⟨rfl, rfl, rfl⟩
  | reqSetCharm curl o1 o2 o3 o4 =>
    left
    rcases setCharm_step_cases f curl o1 o2 o3 o4 with ⟨msg, hs⟩ | ⟨msg, hs⟩ | hs <;>
      rw [hs]
    · exact ⟨rfl, rfl⟩
    · exact ⟨rfl, rfl⟩
    · exact ⟨by simp, by simp⟩
  | reqWantForcedUpgrade b =>
    left
    show ((upgradeChanged _).relations = f.relations ∧
      (upgradeChanged _).outRelations = f.outRelations)
    rw [upgradeChanged_relations, upgradeChanged_outRelations]
    exact ⟨rfl, rfl⟩
  | reqWantResolved =>
    left
    show ((if f.resolved ≠ ResolvedMode.ResolvedNone then
        ({ f with outResolved := true } : Filter) else f).relations = f.relations ∧
      (if f.resolved ≠ ResolvedMode.ResolvedNone then
        ({ f with outResolved := true } : Filter) else f).outRelations = f.outRelations)
    split <;> exact ⟨rfl, rfl⟩
  | reqClearResolved cErr r =>
    left
    rcases hc : cErr with _ | e1
    · have hstep : step f (Event.reqClearResolved none r) =
          match unitChanged { f with outResolved := false } r with
          | .error err => ⟨{ f with outResolved := false }, [], some err⟩
          | .ok f' => ⟨f', [Output.clearResolvedAck], none⟩ := rfl
      rcases huc : unitChanged { f with outResolved := false } r with err | f'
      · rw [hstep, huc]; exact ⟨rfl, rfl⟩
      · rw [hstep, huc]
        have hp := unitChanged_preserves huc
        exact ⟨hp.2.2.2.1, hp.2.2.2.2.2.1⟩
    · exact ⟨rfl, rfl⟩
  | reqDiscardConfig => left; exact ⟨rfl, rfl⟩

/-- C7: every list delivered on the RelationsEvents channel is strictly
ascending and duplicate-free; `relationsChanged` adds exactly the ids not
already pending (collapsing duplicates within one notification) and a
delivery clears the pending list. -/
theorem relations_events_sorted (d : InitData) (f0 fr : Filter)
    (t : List Event) (outs : List Output)
    (hinit : initLoop d = Except.ok f0) (hrun : runOk f0 t = some (fr, outs)) :
    (∀ l, Output.relationsSent l ∈ outs → l.Sorted (· < ·) ∧ l.Nodup) ∧
    (∀ (g : Filter) (ids : List Int) (i : Int),
      i ∈ (relationsChanged g ids).relations ↔ i ∈ g.relations ∨ i ∈ ids) ∧
    (∀ g : Filter, (step g Event.deliverRelations).state.relations = [] ∧
      (step g Event.deliverRelations).state.outRelations = false) := by
  refine ⟨?_, ?_, fun g => ⟨rfl, rfl⟩⟩
  · have hP0 : f0.relations.Nodup ∧
        (f0.outRelations = true → f0.relations.Sorted (· < ·)) := by
      obtain ⟨hrel, hout, -, -⟩ := initLoop_ok_fields hinit
      refine ⟨by rw [hrel]; exact List.nodup_nil, fun hh => ?_⟩
      rw [hout] at hh; cases hh
    have hmain := @runOk_inv
      (fun g => g.relations.Nodup ∧
        (g.outRelations = true → g.relations.Sorted (· < ·)))
      (fun o => ∀ l, o = Output.relationsSent l → l.Sorted (· < ·) ∧ l.Nodup)
      (fun _ => True)
      (by
        intro g e hg htriv hen herr
        constructor
        · rcases step_relations_cases g e with ⟨h1, h2⟩ | ⟨ids, -, hs⟩ | ⟨-, h1, h2⟩
          · rw [h1, h2]; exact hg
          · rw [hs]; exact relationsChanged_inv hg.1 ids
          · rw [h1, h2]
            exact ⟨List.nodup_nil, fun hh => by cases hh⟩
        · intro o ho l hol
          rcases step_outputs_cases g e with hc | ⟨hc, -⟩ | ⟨hc, -⟩ | ⟨hc, -⟩ |
            ⟨hc, he⟩ | hc | hc
          · rw [hc] at ho; cases ho
          · rw [hc] at ho
            rcases List.mem_singleton.mp ho with rfl
            cases hol
          · rw [hc] at ho
            rcases List.mem_singleton.mp ho with rfl
            cases hol
          · rw [hc] at ho
            rcases List.mem_singleton.mp ho with rfl
            cases hol
          · rw [hc] at ho
            rcases List.mem_singleton.mp ho with rfl
            have hl : l = g.relations := by injection hol with h'; exact h'.symm
            subst hl he
            have hgout : g.outRelations = true := hen
            exact ⟨hg.2 hgout, hg.1⟩
          · rw [hc] at ho
            rcases List.mem_singleton.mp ho with rfl
            cases hol
          · rw [hc] at ho
            rcases List.mem_singleton.mp ho with rfl
            cases hol)
      t f0 fr outs hP0 (fun _ _ => trivial) hrun
    exact fun l hl => hmain.2 _ hl l rfl
  · intro g ids i
    unfold relationsChanged
    dsimp only
    split
    · exact (List.mem_insertionSort (· ≤ ·)).trans (foldl_addId_mem ids g.relations i)
    · exact foldl_addId_mem ids g.relations i

/-- Witness for C7: the relations watcher reports `[3, 1, 2, 1]` and the
delivered list is the strictly ascending `[1, 2, 3]`. -/
theorem relations_events_sorted_witness :
    ([1, 2, 3] : List Int).Sorted (· < ·) ∧ ([1, 2, 3] : List Int).Nodup :=
  (relations_events_sorted exampleInit exampleStartup exampleStartup
    [Event.relationsNotify [3, 1, 2, 1], Event.deliverRelations]
    [Output.relationsSent [1, 2, 3]] (by decide) (by decide)).1 [1, 2, 3] (by decide)

/-! ### C5 -/

/-- Preservation of the C5 invariant ("the adopted charm URL is `u`, and an
armed pending upgrade differs from `u`") by every non-SetCharm event. -/
lemma step_preserves_from_url (u : CharmURL) (f : Filter) (e : Event)
    (hP1 : f.upgradeFrom.url = some u)
    (hP2 : f.outUpgrade = true → f.upgrade ≠ some u)
    (hne : ∀ curl o1 o2 o3 o4, e ≠ Event.reqSetCharm curl o1 o2 o3 o4)
    (herr : (step f e).error = none) :
    (step f e).state.upgradeFrom.url = some u ∧
    ((step f e).state.outUpgrade = true → (step f e).state.upgrade ≠ some u) := by
  cases e with
  | unitNotify r =>
    have hstep : step f (Event.unitNotify r) =
        match unitChanged f r with
        | .ok f' => ⟨f', [], none⟩
        | .error err => ⟨f, [], some err⟩ := rfl
    rcases huc : unitChanged f r with err | f'
    · rw [hstep, huc] at herr; cases herr
    · rw [hstep, huc]
      have hp := unitChanged_preserves huc
      constructor
      · show f'.upgradeFrom.url = some u
        rw [hp.1]; exact hP1
      · intro harm
        show f'.upgrade ≠ some u
        rw [hp.2.2.1]
        exact hP2 (hp.2.2.2.2.2.2.2.2.1 harm)
  | serviceNotify r dE =>
    have hstep : step f (Event.serviceNotify r dE) =
        match serviceChanged f r dE with
        | .ok f' => ⟨f', [], none⟩
        | .error err => ⟨f, [], some err⟩ := rfl
    rcases hsc : serviceChanged f r dE with err | f'
    · rw [hstep, hsc] at herr; cases herr
    · rw [hstep, hsc]
      obtain ⟨s, -, -, -, hf'⟩ := serviceChanged_ok_shape hsc
      subst hf'
      constructor
      · show (upgradeChanged _).upgradeFrom.url = some u
        rw [upgradeChanged_upgradeFrom]; exact hP1
      · intro harm
        obtain ⟨-, fu, au, hfu, hau, hneq, -⟩ := (upgradeChanged_armed_iff _).mp harm
        have hfu' : u = fu := by
          have := hP1.symm.trans hfu
          injection this
        intro hc
        rw [upgradeChanged_armed_upgrade _ harm, hau] at hc
        injection hc with hc'
        exact hneq (hc'.trans hfu')
  | configNotify => exact ⟨hP1, hP2⟩
  | relationsNotify ids =>
    constructor
    · show (relationsChanged f ids).upgradeFrom.url = some u
      rw [relationsChanged_upgradeFrom]; exact hP1
    · intro harm
      show (relationsChanged f ids).upgrade ≠ some u
      rw [relationsChanged_upgrade]
      rw [show (step f (Event.relationsNotify ids)).state = relationsChanged f ids
        from rfl, relationsChanged_outUpgrade] at harm
      exact hP2 harm
  | deliverUpgrade =>
    refine ⟨hP1, ?_⟩
    intro harm
    cases harm
  | deliverResolved => exact ⟨hP1, hP2⟩
  | deliverConfig => exact ⟨hP1, hP2⟩
  | deliverRelations =>
    refine ⟨hP1, ?_⟩
    intro harm
    exact hP2 harm
  | reqSetCharm curl o1 o2 o3 o4 => exact absurd rfl (hne curl o1 o2 o3 o4)
  | reqWantForcedUpgrade b =>
    have hstep : (step f (Event.reqWantForcedUpgrade b)).state =
        upgradeChanged { f with upgradeFrom := { f.upgradeFrom with force := b } } := rfl
    rw [hstep]
    constructor
    · rw [upgradeChanged_upgradeFrom]; exact hP1
    · intro harm
      obtain ⟨-, fu, au, hfu, hau, hneq, -⟩ := (upgradeChanged_armed_iff _).mp harm
      have hfu' : u = fu := by
        have h0 : f.upgradeFrom.url = some fu := hfu
        have := hP1.symm.trans h0
        injection this
      intro hc
      rw [upgradeChanged_armed_upgrade _ harm, hau] at hc
      injection hc with hc'
      exact hneq (hc'.trans hfu')
  | reqWantResolved =>
    have hstep : (step f Event.reqWantResolved).state =
        if f.resolved ≠ ResolvedMode.ResolvedNone then
          ({ f with outResolved := true } : Filter) else f := rfl
    rw [hstep]
    split
    · exact ⟨hP1, hP2⟩
    · exact ⟨hP1, hP2⟩
  | reqClearResolved cErr r =>
    rcases hc : cErr with _ | e1
    · subst hc
      have hstep : step f (Event.reqClearResolved none r) =
          match unitChanged { f with outResolved := false } r with
          | .error err => ⟨{ f with outResolved := false }, [], some err⟩
          | .ok f' => ⟨f', [Output.clearResolvedAck], none⟩ := rfl
      rcases huc : unitChanged { f with outResolved := false } r with err | f'
      · rw [hstep, huc] at herr; cases herr
      · rw [hstep, huc]
        have hp := unitChanged_preserves huc
        constructor
        · show f'.upgradeFrom.url = some u
          rw [hp.1]; exact hP1
        · intro harm
          show f'.upgrade ≠ some u
          rw [hp.2.2.1]
          exact hP2 (hp.2.2.2.2.2.2.2.2.1 harm)
    · subst hc
      exact absurd herr (by simp [step])
  | reqDiscardConfig => exact ⟨hP1, hP2⟩

/-- C5: after a SetCharm(u) iteration that completes without error,
`UpgradeFrom.url = some u`; it remains `some u` across any further
error-free events that are not themselves SetCharm requests; and every
upgrade event delivered during those events carries a charm URL ≠ u. -/
theorem setCharm_sets_upgradeFrom (f : Filter) (u : CharmURL)
    (o1 o2 o3 o4 : Option String) (t : List Event) (fr : Filter) (outs : List Output)
    (hok : (step f (Event.reqSetCharm u o1 o2 o3 o4)).error = none)
    (ht : ∀ e ∈ t, ∀ curl a b c d2, e ≠ Event.reqSetCharm curl a b c d2)
    (hrun : runOk (step f (Event.reqSetCharm u o1 o2 o3 o4)).state t = some (fr, outs)) :
    (step f (Event.reqSetCharm u o1 o2 o3 o4)).state.upgradeFrom.url = some u ∧
    fr.upgradeFrom.url = some u ∧
    (∀ w, Output.upgradeSent w ∈ outs → w ≠ some u) := by
  rcases setCharm_step_cases f u o1 o2 o3 o4 with ⟨msg, hs⟩ | ⟨msg, hs⟩ | hs
  · rw [hs] at hok; cases hok
  · rw [hs] at hok; cases hok
  · rw [hs] at hrun ⊢
    have hP1 : (upgradeChanged { f with
        configWatcherActive := true,
        upgradeFrom := { f.upgradeFrom with url := some u } }).upgradeFrom.url = some u := by
      rw [upgradeChanged_upgradeFrom]
    have hP2 : (upgradeChanged { f with
        configWatcherActive := true,
        upgradeFrom := { f.upgradeFrom with url := some u } }).outUpgrade = true →
        (upgradeChanged { f with
          configWatcherActive := true,
          upgradeFrom := { f.upgradeFrom with url := some u } }).upgrade ≠ some u := by
      intro harm
      obtain ⟨-, fu, au, hfu, hau, hneq, -⟩ := (upgradeChanged_armed_iff _).mp harm
      have hfu' : u = fu := by injection hfu
      intro hc
      rw [upgradeChanged_armed_upgrade _ harm, hau] at hc
      injection hc with hc'
      exact hneq (hc'.trans hfu')
    have hmain := @runOk_inv
      (fun g => g.upgradeFrom.url = some u ∧
        (g.outUpgrade = true → g.upgrade ≠ some u))
      (fun o => ∀ w, o = Output.upgradeSent w → w ≠ some u)
      (fun e => ∀ curl a b c d2, e ≠ Event.reqSetCharm curl a b c d2)
      (by
        intro g e hg hal hen herr
        constructor
        · exact step_preserves_from_url u g e hg.1 hg.2 hal herr
        · intro o ho w how
          rcases step_outputs_cases g e with hq | ⟨hq, he⟩ | ⟨hq, -⟩ | ⟨hq, -⟩ |
            ⟨hq, -⟩ | hq | hq
          · rw [hq] at ho; cases ho
          · rw [hq] at ho
            rcases List.mem_singleton.mp ho with rfl
            injection how with how'
            subst he
            rw [← how']
            exact hg.2 hen
          · rw [hq] at ho
            rcases List.mem_singleton.mp ho with rfl
            cases how
          · rw [hq] at ho
            rcases List.mem_singleton.mp ho with rfl
            cases how
          · rw [hq] at ho
            rcases List.mem_singleton.mp ho with rfl
            cases how
          · rw [hq] at ho
            rcases List.mem_singleton.mp ho with rfl
            cases how
          · rw [hq] at ho
            rcases List.mem_singleton.mp ho with rfl
            cases how)
      t _ fr outs ⟨hP1, hP2⟩ ht hrun
    exact ⟨hP1, hmain.1.1, fun w hw => hmain.2 _ hw w rfl⟩

/-- The state reached in the C5 witness trace. -/
def exampleC5Final : Filter :=
  { exampleAvail with
    upgradeFrom := ⟨some "cs:foo-2", false⟩,
    upgradeAvailable := ⟨some "cs:foo-3", false⟩,
    upgrade := some "cs:foo-3",
    configWatcherActive := true }

/-- Witness for C5: SetCharm("cs:foo-2") succeeds; a later service
notification announces "cs:foo-3"; the delivered upgrade URL differs from
"cs:foo-2". -/
theorem setCharm_sets_upgradeFrom_witness :
    (step exampleAvail
      (Event.reqSetCharm "cs:foo-2" none none none none)).state.upgradeFrom.url
      = some "cs:foo-2" ∧
    exampleC5Final.upgradeFrom.url = some "cs:foo-2" ∧
    (∀ w, Output.upgradeSent w ∈ [Output.upgradeSent (some "cs:foo-3")] →
      w ≠ some "cs:foo-2") :=
  setCharm_sets_upgradeFrom exampleAvail "cs:foo-2" none none none none
    [Event.serviceNotify (Except.ok ⟨Life.Alive, "cs:foo-3", false⟩) none,
     Event.deliverUpgrade]
    exampleC5Final [Output.upgradeSent (some "cs:foo-3")]
    (by decide)
    (by
      intro e he curl a b c d2
      simp only [List.mem_cons, List.not_mem_nil, or_false] at he
      rcases he with he | he <;> subst he <;> exact fun hcon => Event.noConfusion hcon)
    (by decide)

/-! ### C8 -/

/-- Backend life monotonicity for a trace that starts Dying: any unit
refresh carried by an event reports a non-Alive life (the backend never
resurrects a unit). -/
def refreshNotAlive : Event → Prop
  | Event.unitNotify (Except.ok u) => u.life ≠ Life.Alive
  | Event.reqClearResolved _ (Except.ok u) => u.life ≠ Life.Alive
  | _ => True

/-- A refresh reporting Dead terminates the loop (when the cached life is
not already Dead). -/
lemma unitChanged_dead_err {f : Filter} {u : UnitInfo}
    (hne : f.life ≠ Life.Dead) (hu : u.life = Life.Dead) :
    unitChanged f (Except.ok u) = .error LoopError.terminateAgent := by
  simp only [unitChanged]
  rw [hu]
  simp [hne]

/-- Preservation of "Dying, UnitDying closed, upgrade disarmed" by every
enabled error-free event whose unit refresh (if any) is life-monotone. -/
lemma step_preserves_dying (f : Filter) (e : Event)
    (h1 : f.life = Life.Dying) (h2 : f.unitDyingClosed = true)
    (h3 : f.outUpgrade = false)
    (ha : refreshNotAlive e) (herr : (step f e).error = none) :
    (step f e).state.life = Life.Dying ∧
    (step f e).state.unitDyingClosed = true ∧
    (step f e).state.outUpgrade = false := by
  cases e with
  | unitNotify r =>
    rcases r with rerr | u
    · rcases rerr with _ | msg
      · exact absurd herr (by simp [step, unitChanged])
      · exact absurd herr (by simp [step, unitChanged])
    · have hstep : step f (Event.unitNotify (Except.ok u)) =
          match unitChanged f (Except.ok u) with
          | .ok f' => ⟨f', [], none⟩
          | .error err => ⟨f, [], some err⟩ := rfl
      rcases huc : unitChanged f (Except.ok u) with err | f'
      · rw [hstep, huc] at herr; cases herr
      · rw [hstep, huc]
        have hu : u.life ≠ Life.Alive := ha
        have hud : u.life ≠ Life.Dead := by
          intro hd
          rw [unitChanged_dead_err
            (by rw [h1]; exact fun hcon => Life.noConfusion hcon) hd] at huc
          cases huc
        have hdying : u.life = Life.Dying := by
          cases hl : u.life
          · exact absurd hl hu
          · rfl
          · exact absurd hl hud
        have hp := unitChanged_preserves huc
        refine ⟨?_, hp.2.2.2.2.2.2.2.2.2 h2, ?_⟩
        · show f'.life = Life.Dying
          rw [unitChanged_life huc, hdying]
        · show f'.outUpgrade = false
          cases hout : f'.outUpgrade
          · rfl
          · rw [hp.2.2.2.2.2.2.2.2.1 hout] at h3; cases h3
  | serviceNotify r dE =>
    have hstep : step f (Event.serviceNotify r dE) =
        match serviceChanged f r dE with
        | .ok f' => ⟨f', [], none⟩
        | .error err => ⟨f, [], some err⟩ := rfl
    rcases hsc : serviceChanged f r dE with err | f'
    · rw [hstep, hsc] at herr; cases herr
    · rw [hstep, hsc]
      obtain ⟨s, -, -, -, hf'⟩ := serviceChanged_ok_shape hsc
      refine ⟨?_, ?_, ?_⟩
      · show f'.life = Life.Dying
        rw [hf', upgradeChanged_life]
        exact h1
      · show f'.unitDyingClosed = true
        rw [hf', upgradeChanged_unitDyingClosed]
        exact h2
      · show f'.outUpgrade = false
        rw [hf', upgradeChanged_eq]
        split
        · rename_i harm
          obtain ⟨hlife, -⟩ := harm
          have hfl : f.life = Life.Alive := hlife
          rw [h1] at hfl
          cases hfl
        · rfl
  | configNotify => exact ⟨h1, h2, h3⟩
  | relationsNotify ids =>
    have hstep : (step f (Event.relationsNotify ids)).state = relationsChanged f ids :=
      rfl
    rw [hstep, relationsChanged_life, relationsChanged_unitDyingClosed,
      relationsChanged_outUpgrade]
    exact ⟨h1, h2, h3⟩
  | deliverUpgrade => exact ⟨h1, h2, rfl⟩
  | deliverResolved => exact ⟨h1, h2, h3⟩
  | deliverConfig => exact ⟨h1, h2, h3⟩
  | deliverRelations => exact ⟨h1, h2, h3⟩
  | reqSetCharm curl o1 o2 o3 o4 =>
    rcases setCharm_step_cases f curl o1 o2 o3 o4 with ⟨msg, hs⟩ | ⟨msg, hs⟩ | hs
    · rw [hs] at herr; cases herr
    · rw [hs] at herr; cases herr
    · rw [hs]
      refine ⟨?_, ?_, ?_⟩
      · show (upgradeChanged _).life = Life.Dying
        rw [upgradeChanged_life]
        exact h1
      · show (upgradeChanged _).unitDyingClosed = true
        rw [upgradeChanged_unitDyingClosed]
        exact h2
      · show (upgradeChanged _).outUpgrade = false
        rw [upgradeChanged_eq]
        split
        · rename_i harm
          obtain ⟨hlife, -⟩ := harm
          have hfl : f.life = Life.Alive := hlife
          rw [h1] at hfl
          cases hfl
        · rfl
  | reqWantForcedUpgrade b =>
    have hstep : (step f (Event.reqWantForcedUpgrade b)).state =
        upgradeChanged { f with upgradeFrom := { f.upgradeFrom with force := b } } := rfl
    rw [hstep]
    refine ⟨?_, ?_, ?_⟩
    · rw [upgradeChanged_life]
      exact h1
    · rw [upgradeChanged_unitDyingClosed]
      exact h2
    · rw [upgradeChanged_eq]
      split
      · rename_i harm
        obtain ⟨hlife, -⟩ := harm
        have hfl : f.life = Life.Alive := hlife
        rw [h1] at hfl
        cases hfl
      · rfl
  | reqWantResolved =>
    have hstep : (step f Event.reqWantResolved).state =
        if f.resolved ≠ ResolvedMode.ResolvedNone then
          ({ f with outResolved := true } : Filter) else f := rfl
    rw [hstep]
    split
    · exact ⟨h1, h2, h3⟩
    · exact ⟨h1, h2, h3⟩
  | reqClearResolved cErr r =>
    rcases hc : cErr with _ | e1
    · subst hc
      have hstep : step f (Event.reqClearResolved none r) =
          match unitChanged { f with outResolved := false } r with
          | .error err => ⟨{ f with outResolved := false }, [], some err⟩
          | .ok f' => ⟨f', [Output.clearResolvedAck], none⟩ := rfl
      rcases r with rerr | u
      · rcases rerr with _ | msg
        · exact absurd herr (by simp [step, unitChanged])
        · exact absurd herr (by simp [step, unitChanged])
      · rcases huc : unitChanged { f with outResolved := false } (Except.ok u)
          with err | f'
        · rw [hstep, huc] at herr; cases herr
        · rw [hstep, huc]
          have hu : u.life ≠ Life.Alive := ha
          have hud : u.life ≠ Life.Dead := by
            intro hd
            rw [@unitChanged_dead_err { f with outResolved := false } u
              (by show f.life ≠ Life.Dead
                  rw [h1]
                  exact fun hcon => Life.noConfusion hcon) hd] at huc
            cases huc
          have hdying : u.life = Life.Dying := by
            cases hl : u.life
            · exact absurd hl hu
            · rfl
            · exact absurd hl hud
          have hp := unitChanged_preserves huc
          refine ⟨?_, ?_, ?_⟩
          · show f'.life = Life.Dying
            rw [unitChanged_life huc, hdying]
          · show f'.unitDyingClosed = true
            exact hp.2.2.2.2.2.2.2.2.2 h2
          · show f'.outUpgrade = false
            cases hout : f'.outUpgrade
            · rfl
            · have hmid := hp.2.2.2.2.2.2.2.2.1 hout
              have hmid2 : f.outUpgrade = true := hmid
              rw [hmid2] at h3
              cases h3
    · subst hc
      exact absurd herr (by simp [step])
  | reqDiscardConfig => exact ⟨h1, h2, h3⟩

/-- C8: when a unit notification first advances life to Dying, the loop
closes `UnitDying`, records the closure permanently, and disarms the
pending upgrade; from then on — under a life-monotone backend — the
upgrade output is never armed again and no upgrade event is ever
delivered, while config, relations and resolved events continue to be
armed as before. -/
theorem unit_dying_permanent :
    (∀ (f : Filter) (u : UnitInfo), f.life = Life.Alive → u.life = Life.Dying →
      (step f (Event.unitNotify (Except.ok u))).error = none ∧
      (step f (Event.unitNotify (Except.ok u))).state.life = Life.Dying ∧
      (step f (Event.unitNotify (Except.ok u))).state.unitDyingClosed = true ∧
      (step f (Event.unitNotify (Except.ok u))).state.outUpgrade = false) ∧
    (∀ (f fr : Filter) (t : List Event) (outs : List Output),
      f.life = Life.Dying → f.unitDyingClosed = true → f.outUpgrade = false →
      (∀ e ∈ t, refreshNotAlive e) → runOk f t = some (fr, outs) →
      (fr.life = Life.Dying ∧ fr.unitDyingClosed = true ∧ fr.outUpgrade = false) ∧
      (∀ w, Output.upgradeSent w ∉ outs)) ∧
    (∀ f : Filter, f.life = Life.Dying →
      (step f Event.configNotify).state.outConfig = true) ∧
    (∀ (f : Filter) (i : Int), f.life = Life.Dying →
      (step f (Event.relationsNotify [i])).state.outRelations = true) ∧
    (∀ f : Filter, f.life = Life.Dying → f.resolved ≠ ResolvedMode.ResolvedNone →
      (step f Event.reqWantResolved).state.outResolved = true) := by
  refine ⟨?_, ?_, fun f _ => rfl, ?_, ?_⟩
  · intro f u hf hu
    have hne : f.life ≠ u.life := by
      rw [hf, hu]; exact fun hc => Life.noConfusion hc
    have huc : unitChanged f (Except.ok u) =
        .ok (resolvedUpdate { f with
          life := Life.Dying, unitDyingClosed := true, outUpgrade := false }
          u.resolved) := by
      simp only [unitChanged]
      rw [hu] at hne ⊢
      simp [hne]
    have hstep : step f (Event.unitNotify (Except.ok u)) =
        match unitChanged f (Except.ok u) with
        | .ok f' => ⟨f', [], none⟩
        | .error err => ⟨f, [], some err⟩ := rfl
    rw [hstep, huc]
    exact ⟨rfl, by rw [resolvedUpdate_life], by rw [resolvedUpdate_unitDyingClosed],
      by rw [resolvedUpdate_outUpgrade]⟩
  · intro f fr t outs h1 h2 h3 hall hrun
    have hmain := @runOk_inv
      (fun g => g.life = Life.Dying ∧ g.unitDyingClosed = true ∧
        g.outUpgrade = false)
      (fun o => ∀ w, o ≠ Output.upgradeSent w)
      refreshNotAlive
      (by
        intro g e hg hal hen herr
        refine ⟨step_preserves_dying g e hg.1 hg.2.1 hg.2.2 hal herr, ?_⟩
        intro o ho w
        rcases step_outputs_cases g e with hq | ⟨hq, he⟩ | ⟨hq, -⟩ | ⟨hq, -⟩ |
          ⟨hq, -⟩ | hq | hq
        · rw [hq] at ho; cases ho
        · subst he
          have : g.outUpgrade = true := hen
          rw [hg.2.2] at this; cases this
        · rw [hq] at ho
          rcases List.mem_singleton.mp ho with rfl
          exact fun hcon => Output.noConfusion hcon
        · rw [hq] at ho
          rcases List.mem_singleton.mp ho with rfl
          exact fun hcon => Output.noConfusion hcon
        · rw [hq] at ho
          rcases List.mem_singleton.mp ho with rfl
          exact fun hcon => Output.noConfusion hcon
        · rw [hq] at ho
          rcases List.mem_singleton.mp ho with rfl
          exact fun hcon => Output.noConfusion hcon
        · rw [hq] at ho
          rcases List.mem_singleton.mp ho with rfl
          exact fun hcon => Output.noConfusion hcon)
      t f fr outs ⟨h1, h2, h3⟩ hall hrun
    exact ⟨hmain.1, fun w hw => hmain.2 _ hw w rfl⟩
  · intro f i hf
    have hstep : (step f (Event.relationsNotify [i])).state = relationsChanged f [i] :=
      rfl
    rw [hstep]
    have hne0 : List.foldl (fun acc id => if acc.contains id then acc
        else acc ++ [id]) f.relations [i] ≠ [] := by
      simp only [List.foldl_cons, List.foldl_nil]
      split
      · rename_i hcon
        intro h0
        rw [h0] at hcon
        simp at hcon
      · intro h0
        simp at h0
    unfold relationsChanged
    dsimp only
    rw [if_pos hne0]
  · intro f hf hres
    have hstep : (step f Event.reqWantResolved).state =
        if f.resolved ≠ ResolvedMode.ResolvedNone then
          ({ f with outResolved := true } : Filter) else f := rfl
    rw [hstep, if_pos hres]

/-- A Dying filter state with `UnitDying` closed. -/
def exampleDying : Filter :=
  { exampleAvail with life := Life.Dying, unitDyingClosed := true }

/-- Witness for C8 at concrete inputs: the Dying transition from
`exampleAvail`, and a run from a Dying state that still delivers a config
event while delivering no upgrade. -/
theorem unit_dying_permanent_witness :
    ((step exampleAvail (Event.unitNotify (Except.ok ⟨Life.Dying,
        ResolvedMode.ResolvedNone⟩))).error = none ∧
     (step exampleAvail (Event.unitNotify (Except.ok ⟨Life.Dying,
        ResolvedMode.ResolvedNone⟩))).state.life = Life.Dying ∧
     (step exampleAvail (Event.unitNotify (Except.ok ⟨Life.Dying,
        ResolvedMode.ResolvedNone⟩))).state.unitDyingClosed = true ∧
     (step exampleAvail (Event.unitNotify (Except.ok ⟨Life.Dying,
        ResolvedMode.ResolvedNone⟩))).state.outUpgrade = false) ∧
    ((({ exampleDying with discardConfigEnabled := true } : Filter).life = Life.Dying ∧
      ({ exampleDying with
        discardConfigEnabled := true } : Filter).unitDyingClosed = true ∧
      ({ exampleDying with discardConfigEnabled := true } : Filter).outUpgrade = false) ∧
     (∀ w, Output.upgradeSent w ∉ [Output.configSent])) :=
  ⟨unit_dying_permanent.1 exampleAvail ⟨Life.Dying, ResolvedMode.ResolvedNone⟩ rfl rfl,
   unit_dying_permanent.2.1 exampleDying
     { exampleDying with discardConfigEnabled := true }
     [Event.configNotify, Event.deliverConfig] [Output.configSent] rfl rfl rfl
     (by
       intro e he
       simp only [List.mem_cons, List.not_mem_nil, or_false] at he
       rcases he with he | he <;> subst he <;> trivial)
     (by decide)⟩

end Uniter
